import Mathlib

/-!
# check_pot: a shallow embedding of `check_pot.c`

The development follows the source file top to bottom:

* `readVoltage`     — one MCP3208-style conversion over the SPI bus,
* `power_spectral`  — magnitude of one DFT bin by direct summation,
* `check_power`     — 256 readings, bin 15, threshold 5000,
* `main`            — option parsing, the kill path, the start path and the
  polling loop.

Machine bytes are natural numbers reduced modulo 256 where the C code stores
into an `unsigned char`.  The `double` arithmetic of `power_spectral` is read
over the real numbers, so the definitions that depend on it are
`noncomputable`; everything else is executable.
-/

namespace CheckPot

/-! ## Constants -/

/-- The constant `SPI_CHANNEL` (defined as 0). -/
def SPI_CHANNEL : Nat := 0

/-- The constant `SAMPLE` (defined as 256). -/
def SAMPLE : Nat := 256

/-! ## The SPI bus -/

/-- The three-byte frame `unsigned char buf[3]`. -/
structure Frame where
  b0 : Nat
  b1 : Nat
  b2 : Nat
deriving DecidableEq

/-- The external bus.  `device t req` is what the converter (or a failed
transaction) leaves in the frame at transaction number `t` when the request
was `req`; `count` is the number of transactions so far and `sent` records the
request frames in the order they were issued. -/
structure Spi where
  device : Nat → Frame → Frame
  count : Nat
  sent : List Frame

/-- One call `wiringPiSPIDataRW (SPI_CHANNEL, buf, 3)`: the frame is overwritten
in place.  The bytes are `unsigned char`, hence the reduction modulo 256.  The
return code of the library call is dropped by the caller and is not modelled. -/
def wiringPiSPIDataRW (spi : Spi) (buf : Frame) : Frame × Spi :=
  let r := spi.device spi.count buf
  (⟨r.b0 % 256, r.b1 % 256, r.b2 % 256⟩,
   ⟨spi.device, spi.count + 1, spi.sent ++ [buf]⟩)

/-! ## `readVoltage` -/

/-- The value of `(channel >> n) & 0x01` for a C `int` (arithmetic shift,
two's complement), as a natural number. -/
def chanBit (channel : Int) (n : Nat) : Nat :=
  (Int.land (channel >>> n) 1).toNat

/-- The request frame built by lines 19–27 of `readVoltage`. -/
def requestFrame (diff channel : Int) : Frame :=
  let b0 : Nat := 0
  let b1 : Nat := 0
  let b2 : Nat := 0
  let b0 := (b0 ||| (1 <<< 2)) % 256
  let b0 := (b0 ||| (if diff ≠ 0 then 0 else 1 <<< 1)) % 256
  let b0 := (b0 ||| chanBit channel 2) % 256
  let b1 := (b1 ||| (chanBit channel 1 <<< 7)) % 256
  let b1 := (b1 ||| (chanBit channel 0 <<< 6)) % 256
  ⟨b0, b1, b2⟩

/-- The 12-bit result extracted on line 31:
`((buf[1] & 0b1111) << 8) | buf[2]`. -/
def decodeFrame (buf : Frame) : Int :=
  (((buf.b1 &&& 0b1111) <<< 8 ||| buf.b2 : Nat) : Int)

/-- The function `int readVoltage(int diff, int channel)`, threading the bus. -/
def readVoltage (diff channel : Int) (spi : Spi) : Int × Spi :=
  let buf := requestFrame diff channel
  let r := wiringPiSPIDataRW spi buf
  let result := decodeFrame r.1
  (result, r.2)

/-! ## `power_spectral` -/

/-- One pass of the loop body of `power_spectral` (lines 39–40), on the
accumulators `(re, im)`.  The array read `f[i]` is `f.getD i 0`; the C code is
only ever run with `i` inside the buffer.  The product `2*M_PI*i*k/len` is
formed left to right in `double`, so no integer product or quotient occurs.
The negation in `- f[i]` is the integer one; C leaves it undefined for the one
value `INT_MIN`, which no reading (they lie in 0..4095) attains. -/
noncomputable def power_spectral_body (f : List Int) (len k : Int)
    (acc : ℝ × ℝ) (i : Nat) : ℝ × ℝ :=
  (acc.1 + ((f.getD i 0 : Int) : ℝ) * Real.cos (2 * Real.pi * (i : ℝ) * (k : ℝ) / (len : ℝ)),
   acc.2 + ((-(f.getD i 0) : Int) : ℝ) * Real.sin (2 * Real.pi * (i : ℝ) * (k : ℝ) / (len : ℝ)))

/-- The function `double power_spectral(int f[], int len, int k)`: the loop runs for
`i = 0, …, len - 1` in this order, starting from `re = 0, im = 0`, and the
result is `sqrt(re*re + im*im)`. -/
noncomputable def power_spectral (f : List Int) (len k : Int) : ℝ :=
  let acc := (List.range len.toNat).foldl (power_spectral_body f len k) (0, 0)
  Real.sqrt (acc.1 * acc.1 + acc.2 * acc.2)

/-! ## `check_power` -/

/-- The sampling loop of `check_power` (lines 49–52): `n` more calls of
`readVoltage(0, 0)`, the readings stored in call order.  The `usleep(1000)`
between calls only passes time and is not modelled. -/
def sampleLoop : Nat → Spi → List Int × Spi
  | 0, spi => ([], spi)
  | n + 1, spi =>
    let r := readVoltage 0 0 spi
    let rest := sampleLoop n r.2
    (r.1 :: rest.1, rest.2)

/-- The function `int check_power()`: fill `result[SAMPLE]`, take bin 15, compare with 5000.
The comparison `ps > 5000` yields the C integers 1 or 0.  The `syslog` line is
not modelled. -/
noncomputable def check_power (spi : Spi) : Int × Spi :=
  let r := sampleLoop SAMPLE spi
  let ps := power_spectral r.1 (SAMPLE : Int) 15
  let is_on : Int := if ps > 5000 then 1 else 0
  (is_on, r.2)

/-! ## The polling loop of `main` -/

/-- What the polling loop does to the outside world. -/
inductive Event where
  /-- The call `sleep(n)`. -/
  | sleep (n : Nat)
  /-- A call of `check_power()` that returned `c`. -/
  | classify (c : Int)
  /-- The transition log line of line 244, with its two arguments. -/
  | logChange (prev new : Int)
  /-- The call `system(pot_on_command)`. -/
  | runOn (cmd : String)
  /-- The call `system(pot_off_command)`. -/
  | runOff (cmd : String)
deriving DecidableEq

/-- The two loop variables `prev_power` and `power`. -/
structure Supervisor where
  prev_power : Int
  power : Int
deriving DecidableEq

/-- Line 239: `prev_power = power = check_power();` with `c` the value
returned by that call. -/
def seed (c : Int) : List Event × Supervisor :=
  ([Event.classify c], ⟨c, c⟩)

/-- One pass of the body of `while(1)` (lines 241–255), where `c` is the value
returned by the call of `check_power()` on line 242.  `on_cmd` and `off_cmd`
are `pot_on_command` and `pot_off_command`, `none` standing for `NULL`. -/
def loopBody (on_cmd off_cmd : Option String) (s : Supervisor) (c : Int) :
    List Event × Supervisor :=
  let ev := [Event.sleep (if s.power ≠ 0 then 5 else 30)]
  let power := c
  let ev := ev ++ [Event.classify c]
  let ev :=
    if s.prev_power ≠ power then
      let ev := ev ++ [Event.logChange s.prev_power power]
      if power ≠ 0 then
        match on_cmd with
        | some cmd => ev ++ [Event.runOn cmd]
        | none => ev
      else
        match off_cmd with
        | some cmd => ev ++ [Event.runOff cmd]
        | none => ev
    else ev
  (ev, ⟨power, power⟩)

/-- The loop run on the classification results `cs` (one per pass): for each
pass, the loop variables at the top of the pass and the events of the pass. -/
def running (on_cmd off_cmd : Option String) :
    Supervisor → List Int → List (Supervisor × List Event)
  | _, [] => []
  | s, c :: cs =>
    let r := loopBody on_cmd off_cmd s c
    (s, r.1) :: running on_cmd off_cmd r.2 cs

/-- Lines 239–256 on the classification results `c0` (the seed) and `cs`. -/
def mainLoop (on_cmd off_cmd : Option String) (c0 : Int) (cs : List Int) :
    List Event × List (Supervisor × List Event) :=
  let r := seed c0
  (r.1, running on_cmd off_cmd r.2 cs)

/-! ## The discrete Fourier transform, as the specification words it -/

/-- The complex DFT coefficient of the first `N` samples of `f` at bin `k`:
the sum over `i` in `[0, N)` of `f[i] * exp(-2*pi*I*i*k/N)`. -/
noncomputable def dftCoeff (f : List Int) (N : Nat) (k : Int) : ℂ :=
  ∑ i in Finset.range N,
    ((f.getD i 0 : Int) : ℂ)
      * Complex.exp (-2 * Real.pi * Complex.I * (i : ℂ) * (k : ℂ) / (N : ℂ))

/-- The real part named by the specification: the sum of
`f[i] * cos(2*pi*i*k/N)`. -/
noncomputable def dftRe (f : List Int) (N : Nat) (k : Int) : ℝ :=
  ∑ i in Finset.range N,
    ((f.getD i 0 : Int) : ℝ) * Real.cos (2 * Real.pi * (i : ℝ) * (k : ℝ) / (N : ℝ))

/-- The imaginary part named by the specification: the sum of
`-f[i] * sin(2*pi*i*k/N)`. -/
noncomputable def dftIm (f : List Int) (N : Nat) (k : Int) : ℝ :=
  ∑ i in Finset.range N,
    -((f.getD i 0 : Int) : ℝ) * Real.sin (2 * Real.pi * (i : ℝ) * (k : ℝ) / (N : ℝ))

/-- The `N`-th root of unity `exp(-2*pi*I*k/N)` whose powers are the factors of
the DFT sum at bin `k`. -/
noncomputable def twiddle (N : Nat) (k : Int) : ℂ :=
  Complex.exp (-2 * Real.pi * Complex.I * (k : ℂ) / (N : ℂ))

/-! ## Auxiliary definitions used to state the properties -/

/-- The readings the channel reader returns, in order, over `n` successive
transactions starting from the bus state `spi`: reading `i` is the value of
`readVoltage(0, 0)` (single-ended, channel 0) at transaction `spi.count + i`. -/
def readings (spi : Spi) (n : Nat) : List Int :=
  (List.range n).map
    (fun i => (readVoltage 0 0 ⟨spi.device, spi.count + i, spi.sent⟩).1)

/-- A bus whose converter answers every transaction with three zero bytes. -/
def zeroSpi : Spi := ⟨fun _ _ => ⟨0, 0, 0⟩, 0, []⟩

/-- The events that are hook invocations (`system(...)` calls). -/
def isHook : Event → Bool
  | Event.runOn _ => true
  | Event.runOff _ => true
  | _ => false

/-- The events that are `sleep(...)` calls. -/
def isSleep : Event → Bool
  | Event.sleep _ => true
  | _ => false

/-- The events that are calls of `check_power()`. -/
def isClassify : Event → Bool
  | Event.classify _ => true
  | _ => false

/-- Bit `n` of a two's-complement integer, as 0 or 1. -/
def bitOf (x : Int) (n : Nat) : Nat := ((x / ((2 ^ n : Nat) : Int)) % 2).toNat

/-! ## The C library's `%d` conversions, as `main` uses them on the PID file -/

/-- The character of the decimal digit `d`. -/
def digitChar (d : Nat) : Char := Char.ofNat (48 + d)

/-- The decimal digits of `n`, most significant first, in front of `acc`;
`fuel` bounds the number of digits. -/
def natDigitsAux : Nat → Nat → List Nat → List Nat
  | 0, _, acc => acc
  | fuel + 1, n, acc =>
    if n < 10 then n :: acc else natDigitsAux fuel (n / 10) (n % 10 :: acc)

/-- The decimal digits of `n`, most significant first (`[0]` for 0). -/
def natDigits (n : Nat) : List Nat := natDigitsAux (n + 1) n []

/-- The text `printf` produces for `%d`: a minus sign for a negative value,
then the decimal digits of the absolute value. -/
def formatInt (v : Int) : List Char :=
  if v < 0 then '-' :: (natDigits v.natAbs).map digitChar
  else (natDigits v.natAbs).map digitChar

/-- The text written by `fprintf (pid_file, "%d\n", pid)`. -/
def fprintf_pid (pid : Int) : List Char := formatInt pid ++ ['\n']

/-- White space as `scanf` skips it (`isspace` in the C locale). -/
def isSpace (c : Char) : Bool :=
  c.toNat = 32 || (9 ≤ c.toNat && c.toNat ≤ 13)

/-- The value of a decimal digit character, `none` for any other character. -/
def digitValue (c : Char) : Option Nat :=
  if 48 ≤ c.toNat ∧ c.toNat ≤ 57 then some (c.toNat - 48) else none

/-- The values of the digits at the start of the text. -/
def leadingDigits : List Char → List Nat
  | [] => []
  | c :: cs =>
    match digitValue c with
    | some d => d :: leadingDigits cs
    | none => []

/-- The number written by a list of decimal digits, most significant first. -/
def digitsValue (ds : List Nat) : Nat := ds.foldl (fun a d => 10 * a + d) 0

/-- An unsigned decimal number at the start of the text, if there is one. -/
def scanNat (s : List Char) : Option Nat :=
  match leadingDigits s with
  | [] => none
  | d :: ds => some (digitsValue (d :: ds))

/-- The integer `scanf` reads for `%d`: white space is skipped, then an optional
sign and at least one digit are required; `none` when the input does not
match. -/
def scanInt (s : List Char) : Option Int :=
  match s.dropWhile isSpace with
  | [] => none
  | c :: cs =>
    if c = '-' then Option.map (fun n : Nat => -(n : Int)) (scanNat cs)
    else if c = '+' then Option.map (fun n : Nat => (n : Int)) (scanNat cs)
    else Option.map (fun n : Nat => (n : Int)) (scanNat (c :: cs))

/-- The conversion of an integer to a 32-bit `int` (two's complement). -/
def toInt32 (v : Int) : Int := (v + 2 ^ 31) % 2 ^ 32 - 2 ^ 31

/-- The value of `pid` after `fscanf (pid_file, "%d\n", &pid)` on a file with
the given content, when `pid` held `old` before: a matching failure leaves the
variable untouched.  The directive after `%d` only consumes white space. -/
def fscanf_pid (content : List Char) (old : Int) : Int :=
  match scanInt content with
  | some v => toInt32 v
  | none => old

/-! ## The command line and the start and kill paths of `main` -/

/-- The constant `FLAG_DAEMONIZE` (defined as 1). -/
def FLAG_DAEMONIZE : Nat := 1

/-- The constant `FLAG_KILL` (defined as 2). -/
def FLAG_KILL : Nat := 2

/-- The signal number of `SIGKILL`. -/
def SIGKILL : Nat := 9

/-- One value returned by `getopt_long (argc, argv, "p:dk", longopt, NULL)`
before it returns -1. -/
inductive Opt where
  /-- The code of `-p path` or `--pidfile path`, with `optarg`. -/
  | pidfile (optarg : String)
  /-- The code of `-d` or `--daemonize`. -/
  | daemonize
  /-- The code of `-k` or `--kill`. -/
  | kill
  /-- The code of `--help`, of an unknown option or of a missing argument. -/
  | other
deriving DecidableEq

/-- The variables `flag` and `pid_file_path` of `main`. -/
structure ParseState where
  flag : Nat
  pid_file_path : Option String
deriving DecidableEq

/-- The `switch (opt)` of lines 135–151. -/
def parseStep (s : ParseState) : Opt → ParseState
  | Opt.pidfile optarg => ⟨s.flag, some optarg⟩
  | Opt.daemonize => ⟨FLAG_DAEMONIZE, s.pid_file_path⟩
  | Opt.kill => ⟨FLAG_KILL, s.pid_file_path⟩
  | Opt.other => s

/-- The option loop of lines 133–152, from `flag = 0` and
`pid_file_path = NULL`. -/
def parseArgs (opts : List Opt) : ParseState :=
  opts.foldl parseStep ⟨0, none⟩

/-- The part of the operating system `main` touches before the polling loop. -/
structure World where
  /-- The content of each file that `fopen (path, "r")` can open. -/
  files : String → Option (List Char)
  /-- Whether `fopen (path, "w+")` succeeds. -/
  creatable : String → Bool
  /-- The processes that `kill` can signal. -/
  live : List Int
  /-- The indeterminate value of the uninitialised variable `pid`. -/
  uninit_pid : Int
  /-- The environment, as `getenv` sees it. -/
  env : String → Option String
  /-- The value `daemon (nochdir, noclose)` returns. -/
  daemon_ret : Int
  /-- The value `getpid ()` returns on line 213. -/
  pid : Int
  /-- The value `wiringPiSPISetup (SPI_CHANNEL, 1000000)` returns. -/
  spi_fd : Int

/-- The call `kill (pid, sig)`: it returns 0 and the process is gone when the
process could be signalled, and -1 otherwise.  This describes a call that
returns to its caller; the calls whose `SIGKILL` reaches the caller itself are
told apart by `killReachesCaller` and `mainAs` below.  A process that was
killed is taken to be gone at once. -/
def sysKill (w : World) (pid : Int) : Int × World :=
  if pid ∈ w.live then
    (0, ⟨w.files, w.creatable, w.live.filter (fun p => p ≠ pid), w.uninit_pid, w.env,
      w.daemon_ret, w.pid, w.spi_fd⟩)
  else (-1, w)

/-- What `main` does to the outside world before the polling loop. -/
inductive Action where
  /-- The call of `openlog` on line 102. -/
  | openlog
  /-- A call of `printf` with the text printed. -/
  | printf (text : String)
  /-- A call of `syslog` at level `LOG_INFO`. -/
  | syslogInfo (msg : String)
  /-- A call of `syslog` at level `LOG_ERR`. -/
  | syslogErr (msg : String)
  /-- A call `fopen (path, "r")` and whether it succeeded. -/
  | fopenRead (path : String) (ok : Bool)
  /-- A call `fopen (path, "w+")` and whether it succeeded. -/
  | fopenWrite (path : String) (ok : Bool)
  /-- The text written to the file opened at `path`. -/
  | fprintf (path : String) (text : List Char)
  /-- A call `kill (pid, sig)` and the value it returned. -/
  | kill (pid : Int) (sig : Nat) (ret : Int)
  /-- A call of `daemon` and the value it returned. -/
  | daemon (ret : Int)
  /-- The call of `wiringPiSPISetup` and the value it returned. -/
  | wiringPiSPISetup (channel speed : Nat) (fd : Int)
deriving DecidableEq

/-- How `main` ends: with an exit code, or inside the polling loop (which does
not return) with the two hook commands. -/
inductive Outcome where
  | exit (code : Int)
  | polling (pot_on_command pot_off_command : Option String)
deriving DecidableEq

/-- One run of `main` up to the polling loop. -/
structure Run where
  outcome : Outcome
  trace : List Action
  world : World

/-- The function `main` from line 102 to line 236, on the options delivered by
`getopt_long` and the state of the outside world.  The log messages are the
format strings of the source; the `strerror` text appended to the bus set-up
message is not modelled. -/
def main (opts : List Opt) (w : World) : Run :=
  let tr := [Action.openlog]
  let st := parseArgs opts
  match st.pid_file_path with
  | none => ⟨Outcome.exit (-1), tr ++ [Action.printf "--pid-file required\n"], w⟩
  | some path =>
    if st.flag = FLAG_KILL then
      match w.files path with
      | some content =>
        let pid := fscanf_pid content w.uninit_pid
        let k := sysKill w pid
        let tr := tr ++ [Action.fopenRead path true, Action.kill pid SIGKILL k.1]
        if k.1 = 0 then
          ⟨Outcome.exit 0, tr ++ [Action.syslogInfo "daemon stopped.\n"], k.2⟩
        else ⟨Outcome.exit 0, tr, k.2⟩
      | none =>
        ⟨Outcome.exit (-1),
          tr ++ [Action.fopenRead path false, Action.syslogErr "no daemon started.\n"], w⟩
    else
      let pot_off_command := w.env "POT_OFF_COMMAND"
      let pot_on_command := w.env "POT_ON_COMMAND"
      if st.flag = FLAG_DAEMONIZE ∧ w.daemon_ret = -1 then
        ⟨Outcome.exit (-1),
          tr ++ [Action.daemon w.daemon_ret, Action.syslogErr "failed to launch daemon.\n"], w⟩
      else
        let tr := if st.flag = FLAG_DAEMONIZE then tr ++ [Action.daemon w.daemon_ret] else tr
        let tr := tr ++ [Action.syslogInfo "daemon started.\n"]
        let pid := w.pid
        if w.creatable path then
          let w1 : World :=
            ⟨fun p => if p = path then some (fprintf_pid pid) else w.files p, w.creatable,
              w.live, w.uninit_pid, w.env, w.daemon_ret, w.pid, w.spi_fd⟩
          let tr := tr ++ [Action.fopenWrite path true, Action.fprintf path (fprintf_pid pid)]
          let tr := tr ++ [Action.wiringPiSPISetup SPI_CHANNEL 1000000 w.spi_fd]
          if w.spi_fd < 0 then
            ⟨Outcome.exit (-1), tr ++ [Action.syslogErr "SPI Setup failed"], w1⟩
          else ⟨Outcome.polling pot_on_command pot_off_command, tr, w1⟩
        else
          ⟨Outcome.exit (-1),
            tr ++ [Action.fopenWrite path false,
              Action.syslogErr "failed to record process id to file.\n"], w⟩

/-- The actions that signal a process. -/
def isKill : Action → Bool
  | Action.kill _ _ _ => true
  | _ => false

/-- The actions of the Starting path: detaching, writing the PID file and
setting up the bus. -/
def isStartAction : Action → Bool
  | Action.daemon _ => true
  | Action.fopenWrite _ _ => true
  | Action.fprintf _ _ => true
  | Action.wiringPiSPISetup _ _ _ => true
  | _ => false

/-- The actions that open or write the PID file. -/
def isFileAction : Action → Bool
  | Action.fopenRead _ _ => true
  | Action.fopenWrite _ _ => true
  | Action.fprintf _ _ => true
  | _ => false

/-- The process that runs `main`: its process identifier and the identifier
of its process group. -/
structure Caller where
  pid : Int
  pgrp : Int
deriving DecidableEq

/-- Whether the signal sent by `kill (pid, SIGKILL)` reaches the calling
process itself: `pid` is the caller's own identifier, or 0 (the caller's
process group), or the negated identifier of the caller's process group.  (On
Linux `kill (-1, sig)` does not signal the caller.) -/
def killReachesCaller (c : Caller) (pid : Int) : Bool :=
  pid = c.pid || pid = 0 || (pid < -1 && pid = -c.pgrp)

/-- The run of `main` by the process `c`.  When the kill path sends `SIGKILL`
to a target that includes `c` itself, the process ends inside `kill` and
`main` never returns: `none`.  In every other case `kill` returns to the
caller and the run is `main opts w`. -/
def mainAs (c : Caller) (opts : List Opt) (w : World) : Option Run :=
  let st := parseArgs opts
  match st.pid_file_path with
  | none => some (main opts w)
  | some path =>
    if st.flag = FLAG_KILL then
      match w.files path with
      | some content =>
        if killReachesCaller c (fscanf_pid content w.uninit_pid) then none
        else some (main opts w)
      | none => some (main opts w)
    else some (main opts w)

/-- A world with the PID file `/run/pot.pid` holding `4242` and a newline,
the given live processes, and every later step succeeding. -/
def sampleWorld (live : List Int) : World :=
  ⟨fun p => if p = "/run/pot.pid" then some ['4', '2', '4', '2', '\n'] else none,
   fun _ => true, live, 0, fun _ => none, 0, 4242, 3⟩

/-! ## Lemmas: the loop of `power_spectral` computes the DFT sums -/

/-- The accumulators after `n` passes of the loop are the two partial sums. -/
theorem foldl_body_eq (f : List Int) (N : Nat) (k : Int) (n : Nat) :
    (List.range n).foldl (power_spectral_body f (N : Int) k) (0, 0)
      = (∑ i in Finset.range n, ((f.getD i 0 : Int) : ℝ) * Real.cos (2 * Real.pi * (i : ℝ) * (k : ℝ) / (N : ℝ)),
         ∑ i in Finset.range n, -((f.getD i 0 : Int) : ℝ) * Real.sin (2 * Real.pi * (i : ℝ) * (k : ℝ) / (N : ℝ))) := by
  induction n with
  | zero => simp
  | succ n ih =>
    rw [List.range_succ, List.foldl_append, ih]
    simp only [List.foldl_cons, List.foldl_nil, power_spectral_body, Finset.sum_range_succ,
      Int.cast_neg, Int.cast_natCast]

/-- The result of `power_spectral` in terms of the two sums of the specification. -/
theorem power_spectral_eq_sqrt (f : List Int) (N : Nat) (k : Int) :
    power_spectral f (N : Int) k
      = Real.sqrt (dftRe f N k * dftRe f N k + dftIm f N k * dftIm f N k) := by
  unfold power_spectral
  simp only [Int.toNat_ofNat, foldl_body_eq]
  rfl

/-- The real part of the DFT coefficient is the cosine sum. -/
theorem dftCoeff_re (f : List Int) (N : Nat) (k : Int) :
    (dftCoeff f N k).re = dftRe f N k := by
  unfold dftCoeff dftRe
  rw [Complex.re_sum]
  refine Finset.sum_congr rfl (fun i _ => ?_)
  have h : (-2 * (Real.pi : ℂ) * Complex.I * (i : ℂ) * (k : ℂ) / (N : ℂ))
      = ((-(2 * Real.pi * (i : ℝ) * (k : ℝ) / (N : ℝ)) : ℝ) : ℂ) * Complex.I := by
    push_cast; ring
  rw [h, ← Complex.ofReal_intCast, Complex.re_ofReal_mul, Complex.exp_ofReal_mul_I_re,
    Real.cos_neg]

/-- The imaginary part of the DFT coefficient is the negated sine sum. -/
theorem dftCoeff_im (f : List Int) (N : Nat) (k : Int) :
    (dftCoeff f N k).im = dftIm f N k := by
  unfold dftCoeff dftIm
  rw [Complex.im_sum]
  refine Finset.sum_congr rfl (fun i _ => ?_)
  have h : (-2 * (Real.pi : ℂ) * Complex.I * (i : ℂ) * (k : ℂ) / (N : ℂ))
      = ((-(2 * Real.pi * (i : ℝ) * (k : ℝ) / (N : ℝ)) : ℝ) : ℂ) * Complex.I := by
    push_cast; ring
  rw [h, ← Complex.ofReal_intCast, Complex.im_ofReal_mul, Complex.exp_ofReal_mul_I_im,
    Real.sin_neg]
  ring

/-- The result of `power_spectral` is the modulus of the DFT coefficient. -/
theorem power_spectral_eq_abs (f : List Int) (N : Nat) (k : Int) :
    power_spectral f (N : Int) k = Complex.abs (dftCoeff f N k) := by
  rw [power_spectral_eq_sqrt, Complex.abs_apply, Complex.normSq_apply, dftCoeff_re, dftCoeff_im]

/-! ## Lemmas: roots of unity -/

/-- Each factor of the DFT sum is a power of the twiddle factor. -/
theorem twiddle_pow (N : Nat) (k : Int) (i : Nat) :
    Complex.exp (-2 * Real.pi * Complex.I * (i : ℂ) * (k : ℂ) / (N : ℂ)) = twiddle N k ^ i := by
  unfold twiddle
  rw [← Complex.exp_nat_mul]
  congr 1
  ring

/-- The DFT coefficient as a sum of powers of the twiddle factor. -/
theorem dftCoeff_eq_sum_pow (f : List Int) (N : Nat) (k : Int) :
    dftCoeff f N k = ∑ i in Finset.range N, ((f.getD i 0 : Int) : ℂ) * twiddle N k ^ i := by
  unfold dftCoeff
  exact Finset.sum_congr rfl (fun i _ => by rw [twiddle_pow])

/-- The twiddle factor is an `N`-th root of unity. -/
theorem twiddle_pow_len (N : Nat) (k : Int) (hN : 1 ≤ N) : twiddle N k ^ N = 1 := by
  unfold twiddle
  rw [← Complex.exp_nat_mul]
  have hN0 : (N : ℂ) ≠ 0 := by exact_mod_cast (Nat.pos_iff_ne_zero.mp hN)
  have h : (N : ℂ) * (-2 * Real.pi * Complex.I * (k : ℂ) / (N : ℂ))
      = ((-k : ℤ) : ℂ) * (2 * Real.pi * Complex.I) := by
    field_simp
    ring
  rw [h]
  exact Complex.exp_int_mul_two_pi_mul_I _

/-- The twiddle factor is not 1 unless `N` divides `k`. -/
theorem twiddle_ne_one (N : Nat) (k : Int) (hN : 1 ≤ N) (hk : ¬ (N : Int) ∣ k) :
    twiddle N k ≠ 1 := by
  intro h
  unfold twiddle at h
  rw [Complex.exp_eq_one_iff] at h
  obtain ⟨n, hn⟩ := h
  apply hk
  have hN0 : (N : ℂ) ≠ 0 := by exact_mod_cast (Nat.pos_iff_ne_zero.mp hN)
  have hpi : (2 * (Real.pi : ℂ) * Complex.I) ≠ 0 := by
    simp [Real.pi_ne_zero, Complex.I_ne_zero]
  have h1 : (k : ℂ) = ((-n * N : ℤ) : ℂ) := by
    have : -(k : ℂ) * (2 * Real.pi * Complex.I) = (n * N : ℂ) * (2 * Real.pi * Complex.I) := by
      field_simp at hn
      linear_combination hn
    have := mul_right_cancel₀ hpi this
    push_cast
    linear_combination -this
  have h2 : k = -n * N := by exact_mod_cast h1
  exact ⟨-n, by rw [h2]; ring⟩

/-- The twiddle factor lies on the unit circle. -/
theorem abs_twiddle (N : Nat) (k : Int) : Complex.abs (twiddle N k) = 1 := by
  unfold twiddle
  have h : (-2 * (Real.pi : ℂ) * Complex.I * (k : ℂ) / (N : ℂ))
      = ((-2 * Real.pi * (k : ℝ) / (N : ℝ) : ℝ) : ℂ) * Complex.I := by
    push_cast; ring
  rw [h, Complex.abs_exp_ofReal_mul_I]

/-- The powers of a non-trivial `N`-th root of unity sum to zero. -/
theorem geom_sum_twiddle (N : Nat) (k : Int) (hN : 1 ≤ N) (hk : ¬ (N : Int) ∣ k) :
    ∑ i in Finset.range N, twiddle N k ^ i = 0 := by
  rw [geom_sum_eq (twiddle_ne_one N k hN hk), twiddle_pow_len N k hN]
  simp

/-- At bin 0 the twiddle factor is 1. -/
theorem twiddle_zero (N : Nat) : twiddle N 0 = 1 := by
  simp [twiddle]

/-! ## Lemmas: particular buffers -/

/-- Reading a constant buffer inside its length. -/
theorem getD_replicate (N : Nat) (v : Int) (i : Nat) (hi : i < N) :
    (List.replicate N v).getD i 0 = v := by
  simp [List.getD_eq_getElem?_getD, List.getElem?_replicate, hi]

/-- The DFT coefficient of a constant buffer. -/
theorem dftCoeff_replicate (N : Nat) (v k : Int) :
    dftCoeff (List.replicate N v) N k = (v : ℂ) * ∑ i in Finset.range N, twiddle N k ^ i := by
  rw [dftCoeff_eq_sum_pow, Finset.mul_sum]
  refine Finset.sum_congr rfl (fun i hi => ?_)
  rw [getD_replicate N v i (Finset.mem_range.mp hi)]

/-- A sum over one period of a periodic sequence does not depend on where it starts. -/
theorem sum_shift_of_periodic (a : ℕ → ℂ) (N : ℕ) (hper : ∀ j, a (j + N) = a j) (r : ℕ) :
    ∑ i in Finset.range N, a (i + r) = ∑ i in Finset.range N, a i := by
  induction r with
  | zero => simp
  | succ r ih =>
    have h1 := Finset.sum_range_succ (fun j => a (j + r)) N
    have h2 := Finset.sum_range_succ' (fun j => a (j + r)) N
    have h3 : a (N + r) = a (0 + r) := by
      rw [Nat.add_comm N r, hper, Nat.zero_add]
    have h4 : ∑ i in Finset.range N, a (i + (r + 1)) = ∑ i in Finset.range N, a (i + 1 + r) :=
      Finset.sum_congr rfl (fun i _ => by rw [Nat.add_right_comm, Nat.add_assoc])
    rw [h4, ← ih]
    rw [h1, h3] at h2
    exact (add_right_cancel h2).symm

/-- Rotating the buffer by `r` multiplies the DFT coefficient by a unit factor. -/
theorem dftCoeff_rotate_nat (f g : List Int) (N : Nat) (k : Int) (r : Nat) (hN : 1 ≤ N)
    (hg : ∀ i, i < N → g.getD i 0 = f.getD ((i + r) % N) 0) :
    twiddle N k ^ r * dftCoeff g N k = dftCoeff f N k := by
  rw [dftCoeff_eq_sum_pow, dftCoeff_eq_sum_pow, Finset.mul_sum]
  have hs := sum_shift_of_periodic
    (fun j => ((f.getD (j % N) 0 : Int) : ℂ) * twiddle N k ^ j) N
    (fun j => by
      simp only [Nat.add_mod_right, pow_add, twiddle_pow_len N k hN, mul_one]) r
  have hl : ∑ i in Finset.range N, twiddle N k ^ r * (((g.getD i 0 : Int) : ℂ) * twiddle N k ^ i)
      = ∑ i in Finset.range N, ((f.getD ((i + r) % N) 0 : Int) : ℂ) * twiddle N k ^ (i + r) :=
    Finset.sum_congr rfl (fun i hi => by
      rw [hg i (Finset.mem_range.mp hi), pow_add]; ring)
  have hr : ∑ i in Finset.range N, ((f.getD (i % N) 0 : Int) : ℂ) * twiddle N k ^ i
      = ∑ i in Finset.range N, ((f.getD i 0 : Int) : ℂ) * twiddle N k ^ i :=
    Finset.sum_congr rfl (fun i hi => by
      rw [Nat.mod_eq_of_lt (Finset.mem_range.mp hi)])
  rw [hl, ← hr]
  exact hs

/-- The index `(i + r) mod N` for an integer `r`, through the residue of `r`. -/
theorem rotate_index (N : Nat) (r : Int) (i : Nat) (hN : 1 ≤ N) :
    (((i : Int) + r) % (N : Int)).toNat = (i + (r % (N : Int)).toNat) % N := by
  have hN0 : (N : Int) ≠ 0 := by omega
  have h0 : 0 ≤ r % (N : Int) := Int.emod_nonneg r hN0
  have h1 : ((i : Int) + r) % (N : Int) = ((i : Int) + (((r % (N : Int)).toNat : Nat) : Int)) % (N : Int) := by
    rw [Int.toNat_of_nonneg h0, Int.add_emod_emod]
  rw [h1, ← Int.natCast_add, ← Int.natCast_mod, Int.toNat_natCast]

/-- One term of the DFT sum of a sampled cosine, split into its two exponentials. -/
theorem sinusoid_term (A θ φ : ℝ) :
    ((A * Real.cos (θ + φ) : ℝ) : ℂ) * Complex.exp (-(θ : ℂ) * Complex.I)
      = (A : ℂ) / 2 * (Complex.exp ((φ : ℂ) * Complex.I)
          + Complex.exp (-(φ : ℂ) * Complex.I) * Complex.exp (-(2 * (θ : ℂ)) * Complex.I)) := by
  have h1 : Complex.exp (((θ : ℂ) + φ) * Complex.I) * Complex.exp (-(θ : ℂ) * Complex.I)
      = Complex.exp ((φ : ℂ) * Complex.I) := by
    rw [← Complex.exp_add]; congr 1; ring
  have h2 : Complex.exp (-((θ : ℂ) + φ) * Complex.I) * Complex.exp (-(θ : ℂ) * Complex.I)
      = Complex.exp (-(φ : ℂ) * Complex.I) * Complex.exp (-(2 * (θ : ℂ)) * Complex.I) := by
    rw [← Complex.exp_add, ← Complex.exp_add]; congr 1; ring
  have hc : (((A * Real.cos (θ + φ) : ℝ)) : ℂ)
      = (A : ℂ) * ((Complex.exp (((θ : ℂ) + φ) * Complex.I)
          + Complex.exp (-((θ : ℂ) + φ) * Complex.I)) / 2) := by
    rw [Complex.ofReal_mul, Complex.ofReal_cos, Complex.ofReal_add, Complex.cos]
  rw [hc]
  linear_combination ((A : ℂ) / 2) * h1 + ((A : ℂ) / 2) * h2

/-- The DFT coefficient of a sampled cosine at its own bin, strictly between 0 and `N/2`. -/
theorem dftCoeff_sinusoid (f : List Int) (N : Nat) (k : Int) (A φ : ℝ)
    (hN : 1 ≤ N) (hk : 0 < k) (hk2 : 2 * k < (N : Int))
    (hf : ∀ i, i < N →
      ((f.getD i 0 : Int) : ℝ) = A * Real.cos (2 * Real.pi * (i : ℝ) * (k : ℝ) / (N : ℝ) + φ)) :
    dftCoeff f N k = (A : ℂ) / 2 * ((N : ℂ) * Complex.exp ((φ : ℂ) * Complex.I)) := by
  have hnd : ¬ (N : Int) ∣ 2 * k := fun h => by
    have := Int.le_of_dvd (by omega) h
    omega
  have hterm : ∀ i ∈ Finset.range N,
      ((f.getD i 0 : Int) : ℂ)
          * Complex.exp (-2 * Real.pi * Complex.I * (i : ℂ) * (k : ℂ) / (N : ℂ))
        = (A : ℂ) / 2 * Complex.exp ((φ : ℂ) * Complex.I)
          + (A : ℂ) / 2 * Complex.exp (-(φ : ℂ) * Complex.I) * twiddle N (2 * k) ^ i := by
    intro i hi
    rw [← twiddle_pow, ← Complex.ofReal_intCast, hf i (Finset.mem_range.mp hi)]
    have e1 : (-2 * (Real.pi : ℂ) * Complex.I * (i : ℂ) * (k : ℂ) / (N : ℂ))
        = -((2 * Real.pi * (i : ℝ) * (k : ℝ) / (N : ℝ) : ℝ) : ℂ) * Complex.I := by
      push_cast; ring
    have e2 : (-2 * (Real.pi : ℂ) * Complex.I * (i : ℂ) * ((2 * k : Int) : ℂ) / (N : ℂ))
        = -(2 * ((2 * Real.pi * (i : ℝ) * (k : ℝ) / (N : ℝ) : ℝ) : ℂ)) * Complex.I := by
      push_cast; ring
    rw [e1, e2, sinusoid_term]
    ring
  unfold dftCoeff
  rw [Finset.sum_congr rfl hterm, Finset.sum_add_distrib, ← Finset.mul_sum (Finset.range N)
    (fun i => twiddle N (2 * k) ^ i), geom_sum_twiddle N (2 * k) hN hnd]
  simp
  ring

/-! ## Lemmas: evaluations at small buffers -/

/-- The buffer `[1]` at bin 0. -/
theorem power_spectral_one_bin_zero : power_spectral [1] ((1 : Nat) : Int) 0 = 1 := by
  rw [power_spectral_eq_sqrt]
  simp [dftRe, dftIm, Finset.sum_range_succ]

/-- The buffer `[1]` at bin 1. -/
theorem power_spectral_one_bin_one : power_spectral [1] ((1 : Nat) : Int) 1 = 1 := by
  rw [power_spectral_eq_sqrt]
  simp [dftRe, dftIm, Finset.sum_range_succ]

/-- The buffer `[-1]` at bin 0. -/
theorem power_spectral_neg_one_bin_zero : power_spectral [-1] ((1 : Nat) : Int) 0 = 1 := by
  rw [power_spectral_eq_sqrt]
  simp [dftRe, dftIm, Finset.sum_range_succ]

/-- The alternating buffer `[1, -1]` at its Nyquist bin. -/
theorem power_spectral_alternating : power_spectral [1, -1] ((2 : Nat) : Int) 1 = 2 := by
  rw [power_spectral_eq_sqrt]
  have h : 2 * Real.pi / 2 = Real.pi := by ring
  simp [dftRe, dftIm, Finset.sum_range_succ, h]
  norm_num

/-- The buffer `[-1, 0, 1, 0]` at bin 1. -/
theorem power_spectral_neg_quarter : power_spectral [-1, 0, 1, 0] ((4 : Nat) : Int) 1 = 2 := by
  rw [power_spectral_eq_sqrt]
  have h : 2 * Real.pi * 2 / 4 = Real.pi := by ring
  simp [dftRe, dftIm, Finset.sum_range_succ, h]
  norm_num
  rw [show (4 : ℝ) = 2 * 2 by norm_num, Real.sqrt_mul_self (by norm_num)]

/-- The cosine sampled four times a period takes the values `1, 0, -1, 0`. -/
theorem cos_quarter_turn (i : Nat) (hi : i < 4) :
    Real.cos (2 * Real.pi * (i : ℝ) * ((1 : Int) : ℝ) / ((4 : Nat) : ℝ) + 0)
      = (((([1, 0, -1, 0] : List Int).getD i 0 : Int)) : ℝ) := by
  have h1 : 2 * Real.pi / 4 = Real.pi / 2 := by ring
  have h2 : 2 * Real.pi * 2 / 4 = Real.pi := by ring
  have h3 : 2 * Real.pi * 3 / 4 = Real.pi / 2 + Real.pi := by ring
  interval_cases i
  · simp
  · simp [h1]
  · simp [h2]
  · simp [h3, Real.cos_add_pi]

/-- The cosine sampled twice a period takes the values `1, -1`. -/
theorem cos_half_turn (i : Nat) (hi : i < 2) :
    Real.cos (2 * Real.pi * (i : ℝ) * ((1 : Int) : ℝ) / ((2 : Nat) : ℝ) + 0)
      = (((([1, -1] : List Int).getD i 0 : Int)) : ℝ) := by
  have h1 : 2 * Real.pi / 2 = Real.pi := by ring
  interval_cases i
  · simp
  · simp [h1]

/-! ## Lemmas: the channel reader and the sampling loop -/

/-- The decoded value is a 12-bit number. -/
theorem decodeFrame_range (buf : Frame) (h2 : buf.b2 < 256) :
    0 ≤ decodeFrame buf ∧ decodeFrame buf ≤ 4095 := by
  unfold decodeFrame
  have h1 : buf.b1 &&& 0b1111 ≤ 15 := Nat.and_le_right
  have h3 : (buf.b1 &&& 0b1111) <<< 8 < 2 ^ 12 := by
    rw [Nat.shiftLeft_eq]; omega
  have h4 : buf.b2 < 2 ^ 12 := by omega
  have h5 := Nat.or_lt_two_pow h3 h4
  constructor
  · exact Int.natCast_nonneg _
  · have : ((buf.b1 &&& 0b1111) <<< 8 ||| buf.b2) ≤ 4095 := by omega
    exact_mod_cast this

/-- The value `readVoltage` returns, in terms of the device's answer. -/
theorem readVoltage_fst (diff channel : Int) (spi : Spi) :
    (readVoltage diff channel spi).1
      = decodeFrame ⟨(spi.device spi.count (requestFrame diff channel)).b0 % 256,
          (spi.device spi.count (requestFrame diff channel)).b1 % 256,
          (spi.device spi.count (requestFrame diff channel)).b2 % 256⟩ := rfl

/-- The bus after one call of `readVoltage`. -/
theorem readVoltage_snd (diff channel : Int) (spi : Spi) :
    (readVoltage diff channel spi).2
      = ⟨spi.device, spi.count + 1, spi.sent ++ [requestFrame diff channel]⟩ := rfl

/-- The sampling loop stores the readings in transaction order. -/
theorem sampleLoop_fst (n : Nat) (spi : Spi) :
    (sampleLoop n spi).1 = readings spi n := by
  induction n generalizing spi with
  | zero => rfl
  | succ n ih =>
    unfold readings
    rw [List.range_succ_eq_map, List.map_cons, List.map_map]
    show (readVoltage 0 0 spi).1 :: (sampleLoop n (readVoltage 0 0 spi).2).1 = _
    rw [ih, readVoltage_snd]
    unfold readings
    congr 1
    apply List.map_congr_left
    intro i _
    simp only [Function.comp, readVoltage_fst]
    rw [Nat.add_assoc, Nat.add_comm 1 i]

/-- The value `check_power` returns, in terms of the 256 readings. -/
theorem check_power_fst (spi : Spi) :
    (check_power spi).1
      = if power_spectral (readings spi 256) 256 15 > 5000 then 1 else 0 := by
  unfold check_power
  simp only [sampleLoop_fst]
  rfl

/-- The loop of `power_spectral` does not run for a length that is not positive. -/
theorem power_spectral_of_nonpos (f : List Int) (len k : Int) (h : len ≤ 0) :
    power_spectral f len k = 0 := by
  unfold power_spectral
  rw [Int.toNat_of_nonpos h]
  simp

/-- An all-zero buffer of a natural length has magnitude 0 in every bin. -/
theorem power_spectral_zero_buffer (N : Nat) (k : Int) :
    power_spectral (List.replicate N 0) (N : Int) k = 0 := by
  rw [power_spectral_eq_abs, dftCoeff_replicate]
  simp

/-- The all-zero bus yields zero readings only. -/
theorem readings_zeroSpi (n : Nat) : readings zeroSpi n = List.replicate n 0 := by
  rw [List.eq_replicate_iff]
  constructor
  · simp [readings]
  · intro b hb
    simp only [readings, List.mem_map] at hb
    obtain ⟨i, _, rfl⟩ := hb
    simp [readVoltage_fst, zeroSpi, decodeFrame]

/-! ## Lemmas: the polling loop -/

/-- The loop variables after one pass. -/
theorem loopBody_snd (on_cmd off_cmd : Option String) (s : Supervisor) (c : Int) :
    (loopBody on_cmd off_cmd s c).2 = ⟨c, c⟩ := rfl

/-- The record of pass `i` of the loop started with both variables equal to `p`. -/
theorem running_getD (on_cmd off_cmd : Option String) (cs : List Int) :
    ∀ (p : Int) (i : Nat), i < cs.length →
      (running on_cmd off_cmd ⟨p, p⟩ cs).getD i (⟨0, 0⟩, [])
        = (⟨(p :: cs).getD i 0, (p :: cs).getD i 0⟩,
           (loopBody on_cmd off_cmd ⟨(p :: cs).getD i 0, (p :: cs).getD i 0⟩ (cs.getD i 0)).1) := by
  induction cs with
  | nil => intro p i hi; simp at hi
  | cons c cs ih =>
    intro p i hi
    cases i with
    | zero => simp [running]
    | succ i =>
      have hi' : i < cs.length := by simpa using hi
      have := ih c i hi'
      simp only [running, loopBody_snd, List.getD_cons_succ]
      exact this

/-- The loop makes one pass per classification result. -/
theorem running_length (on_cmd off_cmd : Option String) (cs : List Int) :
    ∀ s : Supervisor, (running on_cmd off_cmd s cs).length = cs.length := by
  induction cs with
  | nil => intro s; rfl
  | cons c cs ih => intro s; simp [running, ih]

/-- The hook invocations of one pass, with both hooks configured. -/
theorem loopBody_hooks (on_cmd off_cmd : String) (p c : Int)
    (hp : p = 0 ∨ p = 1) (hc : c = 0 ∨ c = 1) :
    (loopBody (some on_cmd) (some off_cmd) ⟨p, p⟩ c).1.filter isHook
      = if p = 0 ∧ c = 1 then [Event.runOn on_cmd]
        else if p = 1 ∧ c = 0 then [Event.runOff off_cmd] else [] := by
  rcases hp with rfl | rfl <;> rcases hc with rfl | rfl <;> simp [loopBody, isHook]

/-- Every entry of a sequence of classification results is 0 or 1. -/
theorem getD_mem_or (c0 : Int) (cs : List Int) (h0 : c0 = 0 ∨ c0 = 1)
    (hcs : ∀ c ∈ cs, c = 0 ∨ c = 1) (i : Nat) :
    (c0 :: cs).getD i 0 = 0 ∨ (c0 :: cs).getD i 0 = 1 := by
  by_cases hi : i < (c0 :: cs).length
  · rw [List.getD_eq_getElem _ _ hi]
    have hm : (c0 :: cs)[i] ∈ c0 :: cs := List.getElem_mem hi
    rcases List.mem_cons.mp hm with h | h
    · rw [h]; exact h0
    · exact hcs _ h
  · left
    rw [List.getD_eq_default]
    omega

/-- Each pass starts with one sleep, then one classification, and neither
occurs again in the pass. -/
theorem loopBody_events (on_cmd off_cmd : Option String) (p c : Int) :
    ∃ rest, (loopBody on_cmd off_cmd ⟨p, p⟩ c).1
        = Event.sleep (if p ≠ 0 then 5 else 30) :: Event.classify c :: rest
      ∧ rest.filter isSleep = [] ∧ rest.filter isClassify = [] := by
  unfold loopBody
  by_cases h : p ≠ c
  · by_cases hc : c ≠ 0
    · cases on_cmd <;> simp [h, hc, isSleep, isClassify]
    · cases off_cmd <;> simp [h, hc, isSleep, isClassify]
  · simp [h, isSleep, isClassify]

/-! ## The classifier -/

/-- C1: for every bus, with `readings spi 256` the 256 readings the channel
reader returns in order (channel 0, single-ended), `check_power` returns 1
(on) if and only if `power_spectral` of those readings at bin 15 is strictly
greater than 5000; a magnitude exactly equal to 5000 returns 0 (off); and the
returned value is always 0 or 1. -/
theorem check_power_threshold (spi : Spi) :
    ((check_power spi).1 = 1 ↔ 5000 < power_spectral (readings spi 256) 256 15)
    ∧ (power_spectral (readings spi 256) 256 15 = 5000 → (check_power spi).1 = 0)
    ∧ ((check_power spi).1 = 0 ∨ (check_power spi).1 = 1) := by
  rw [check_power_fst]
  by_cases h : power_spectral (readings spi 256) 256 15 > 5000
  · simp [h]
    intro h'
    rw [h'] at h
    exact absurd h (lt_irrefl _)
  · simp [h]

/-! ## The estimator -/

/-- C2: for every integer buffer `f` of length `N ≥ 1` and every integer bin
`k`, `power_spectral f N k`, read over the reals, is the modulus of the complex
DFT coefficient (the sum of `f[i] * exp(-2*pi*I*i*k/N)`), that is
`sqrt(re^2 + im^2)` with `re` the sum of `f[i] * cos(2*pi*i*k/N)` and `im` the
sum of `-f[i] * sin(2*pi*i*k/N)`; hence it is non-negative. -/
theorem power_spectral_is_dft_modulus (f : List Int) (N : Nat) (k : Int)
    (_hN : 1 ≤ N) (_hlen : f.length = N) :
    power_spectral f (N : Int) k = Complex.abs (dftCoeff f N k)
    ∧ power_spectral f (N : Int) k
        = Real.sqrt ((∑ i in Finset.range N,
              ((f.getD i 0 : Int) : ℝ)
                * Real.cos (2 * Real.pi * (i : ℝ) * (k : ℝ) / (N : ℝ))) ^ 2
            + (∑ i in Finset.range N,
              -((f.getD i 0 : Int) : ℝ)
                * Real.sin (2 * Real.pi * (i : ℝ) * (k : ℝ) / (N : ℝ))) ^ 2)
    ∧ 0 ≤ power_spectral f (N : Int) k := by
  refine ⟨power_spectral_eq_abs f N k, ?_, ?_⟩
  · rw [power_spectral_eq_sqrt, dftRe, dftIm, sq, sq]
  · rw [power_spectral_eq_sqrt]
    exact Real.sqrt_nonneg _

/-- C2, witness: the buffer `[1, 2]` of length 2 at bin 1. -/
theorem power_spectral_is_dft_modulus_witness :
    power_spectral [1, 2] ((2 : Nat) : Int) 1 = Complex.abs (dftCoeff [1, 2] 2 1)
    ∧ power_spectral [1, 2] ((2 : Nat) : Int) 1
        = Real.sqrt ((∑ i in Finset.range 2,
              (((([1, 2] : List Int).getD i 0 : Int)) : ℝ)
                * Real.cos (2 * Real.pi * (i : ℝ) * ((1 : Int) : ℝ) / ((2 : Nat) : ℝ))) ^ 2
            + (∑ i in Finset.range 2,
              -(((([1, 2] : List Int).getD i 0 : Int)) : ℝ)
                * Real.sin (2 * Real.pi * (i : ℝ) * ((1 : Int) : ℝ) / ((2 : Nat) : ℝ))) ^ 2)
    ∧ 0 ≤ power_spectral [1, 2] ((2 : Nat) : Int) 1 :=
  power_spectral_is_dft_modulus [1, 2] 2 1 (by decide) rfl

/-- C3, counterexample: the identity `A*N/2` fails at both ends of the bin range
and for a negative amplitude.  At `N = 1, k = 0, A = 1` the buffer `[1]` is the
sampled cosine and the magnitude is 1, not 1/2; at `N = 2, k = 1 = N/2, A = 1`
the buffer `[1, -1]` gives 2, not 1; at `N = 4, k = 1, A = -1` the buffer
`[-1, 0, 1, 0]` gives 2, not -2. -/
theorem sinusoid_identity_fails :
    ((∀ i : Nat, i < 1 → (((([1] : List Int).getD i 0 : Int)) : ℝ)
          = 1 * Real.cos (2 * Real.pi * (i : ℝ) * ((0 : Int) : ℝ) / ((1 : Nat) : ℝ) + 0))
      ∧ power_spectral [1] ((1 : Nat) : Int) 0 ≠ 1 * ((1 : Nat) : ℝ) / 2)
    ∧ ((∀ i : Nat, i < 2 → (((([1, -1] : List Int).getD i 0 : Int)) : ℝ)
          = 1 * Real.cos (2 * Real.pi * (i : ℝ) * ((1 : Int) : ℝ) / ((2 : Nat) : ℝ) + 0))
      ∧ power_spectral [1, -1] ((2 : Nat) : Int) 1 ≠ 1 * ((2 : Nat) : ℝ) / 2)
    ∧ ((∀ i : Nat, i < 4 → (((([-1, 0, 1, 0] : List Int).getD i 0 : Int)) : ℝ)
          = (-1) * Real.cos (2 * Real.pi * (i : ℝ) * ((1 : Int) : ℝ) / ((4 : Nat) : ℝ) + 0))
      ∧ power_spectral [-1, 0, 1, 0] ((4 : Nat) : Int) 1 ≠ (-1) * ((4 : Nat) : ℝ) / 2) := by
  refine ⟨⟨?_, ?_⟩, ⟨?_, ?_⟩, ⟨?_, ?_⟩⟩
  · intro i hi
    interval_cases i
    simp
  · rw [power_spectral_one_bin_zero]
    norm_num
  · intro i hi
    rw [cos_half_turn i hi, one_mul]
  · rw [power_spectral_alternating]
    norm_num
  · intro i hi
    rw [cos_quarter_turn i hi]
    interval_cases i <;> simp
  · rw [power_spectral_neg_quarter]
    norm_num

/-- C3, amended: for every buffer length `N ≥ 1`, every bin `k` strictly
between 0 and `N/2` and every real amplitude `A`, if the buffer is the sampled
cosine `f[i] = A*cos(2*pi*i*k/N + phase)` then `power_spectral f N k` equals
`|A|*N/2` (which is `A*N/2` when `A ≥ 0`). -/
theorem power_spectral_sinusoid (f : List Int) (N : Nat) (k : Int) (A φ : ℝ)
    (hN : 1 ≤ N) (_hlen : f.length = N) (hk : 0 < k) (hk2 : 2 * k < (N : Int))
    (hf : ∀ i : Nat, i < N →
      ((f.getD i 0 : Int) : ℝ)
        = A * Real.cos (2 * Real.pi * (i : ℝ) * (k : ℝ) / (N : ℝ) + φ)) :
    power_spectral f (N : Int) k = |A| * (N : ℝ) / 2 := by
  rw [power_spectral_eq_abs, dftCoeff_sinusoid f N k A φ hN hk hk2 hf]
  simp only [map_mul, map_div₀, Complex.abs_ofReal, Complex.abs_exp_ofReal_mul_I,
    Complex.abs_natCast, Complex.abs_ofNat, mul_one]
  ring

/-- C3, witness: the buffer `[1, 0, -1, 0]` is the cosine of amplitude 1 at bin 1
of 4, and its magnitude is `1 * 4 / 2`. -/
theorem power_spectral_sinusoid_witness :
    power_spectral [1, 0, -1, 0] ((4 : Nat) : Int) 1 = |(1 : ℝ)| * ((4 : Nat) : ℝ) / 2 :=
  power_spectral_sinusoid [1, 0, -1, 0] 4 1 1 0 (by decide) rfl (by decide) (by decide)
    (fun i hi => by rw [cos_quarter_turn i hi, one_mul])

/-- C4, counterexample: the constant buffer `[1]` (`N = 1`, `v = 1`) at the
non-zero bin `k = 1` has magnitude 1, not 0. -/
theorem dc_other_bin_fails :
    power_spectral (List.replicate 1 1) ((1 : Nat) : Int) 1 ≠ 0 := by
  rw [show (List.replicate 1 (1 : Int)) = [1] from rfl, power_spectral_one_bin_one]
  norm_num

/-- C4, amended: for every buffer length `N ≥ 1` and every constant value `v`,
a buffer whose `N` samples all equal `v` gives `power_spectral = 0` at every
bin `k` that is not a multiple of `N` (in particular for `0 < k < N`). -/
theorem power_spectral_dc_other_bin (N : Nat) (v k : Int) (hN : 1 ≤ N)
    (hk : ¬ (N : Int) ∣ k) :
    power_spectral (List.replicate N v) (N : Int) k = 0 := by
  rw [power_spectral_eq_abs, dftCoeff_replicate, geom_sum_twiddle N k hN hk]
  simp

/-- C4, witness: the constant buffer `[3, 3]` at bin 1. -/
theorem power_spectral_dc_other_bin_witness :
    power_spectral (List.replicate 2 3) ((2 : Nat) : Int) 1 = 0 :=
  power_spectral_dc_other_bin 2 3 1 (by decide) (by decide)

/-- C5, counterexample: the constant buffer `[-1]` (`N = 1`, `v = -1`) at bin 0
has magnitude 1, not `v*N = -1`. -/
theorem dc_bin_zero_fails :
    power_spectral (List.replicate 1 (-1)) ((1 : Nat) : Int) 0
      ≠ ((-1 : Int) : ℝ) * ((1 : Nat) : ℝ) := by
  rw [show (List.replicate 1 (-1 : Int)) = [-1] from rfl, power_spectral_neg_one_bin_zero]
  norm_num

/-- C5, amended: for every buffer length `N` and every constant value `v`, a
buffer whose `N` samples all equal `v` gives `power_spectral = |v|*N` at bin 0
(which is `v*N` when `v > 0`). -/
theorem power_spectral_dc_bin_zero (N : Nat) (v : Int) :
    power_spectral (List.replicate N v) (N : Int) 0 = |(v : ℝ)| * (N : ℝ) := by
  rw [power_spectral_eq_abs, dftCoeff_replicate, twiddle_zero]
  simp

/-- C6: for every buffer `f` of length `N ≥ 1`, every integer bin `k` and every
rotation amount `r`, the circularly rotated buffer `g[i] = f[(i + r) mod N]` has
the same `power_spectral` at bin `k` as `f`. -/
theorem power_spectral_rotation_invariant (f g : List Int) (N : Nat) (k r : Int)
    (hN : 1 ≤ N) (_hf : f.length = N) (_hlen : g.length = N)
    (hg : ∀ i : Nat, i < N → g.getD i 0 = f.getD (((i : Int) + r) % (N : Int)).toNat 0) :
    power_spectral g (N : Int) k = power_spectral f (N : Int) k := by
  rw [power_spectral_eq_abs, power_spectral_eq_abs]
  have h := dftCoeff_rotate_nat f g N k (r % (N : Int)).toNat hN
    (fun i hi => by rw [hg i hi, rotate_index N r i hN])
  rw [← h, map_mul, map_pow, abs_twiddle, one_pow, one_mul]

/-- C6, witness: `[2, 3, 1]` is `[1, 2, 3]` rotated by one place. -/
theorem power_spectral_rotation_invariant_witness :
    power_spectral [2, 3, 1] ((3 : Nat) : Int) 1 = power_spectral [1, 2, 3] ((3 : Nat) : Int) 1 :=
  power_spectral_rotation_invariant [1, 2, 3] [2, 3, 1] 3 1 1 (by decide) rfl rfl
    (fun i hi => by interval_cases i <;> rfl)

/-- C7: for every buffer length and every bin, `power_spectral` of an all-zero
buffer is exactly 0, and a cycle whose 256 readings are all zero makes
`check_power` return 0 (off). -/
theorem power_spectral_all_zero :
    (∀ (len k : Int), power_spectral (List.replicate len.toNat 0) len k = 0)
    ∧ (∀ spi : Spi, readings spi 256 = List.replicate 256 0 → (check_power spi).1 = 0) := by
  constructor
  · intro len k
    rcases le_or_lt len 0 with h | h
    · exact power_spectral_of_nonpos _ len k h
    · have h' : ((len.toNat : Nat) : Int) = len := Int.toNat_of_nonneg (le_of_lt h)
      have := power_spectral_zero_buffer len.toNat k
      rwa [h'] at this
  · intro spi hspi
    rw [check_power_fst, hspi]
    have h := power_spectral_zero_buffer 256 15
    have h256 : ((256 : Nat) : Int) = 256 := rfl
    rw [h256] at h
    rw [h]
    norm_num

/-- C7, witness: the bus that answers every transaction with zero bytes. -/
theorem power_spectral_all_zero_witness : (check_power zeroSpi).1 = 0 :=
  power_spectral_all_zero.2 zeroSpi (readings_zeroSpi 256)

/-! ## The channel reader -/

/-- C8: for every differential flag, every channel argument and every bus
(hence every three response bytes left in the frame, a failed transaction
included), `readVoltage` returns an integer in `[0, 4095]`. -/
theorem readVoltage_range (diff channel : Int) (spi : Spi) :
    0 ≤ (readVoltage diff channel spi).1 ∧ (readVoltage diff channel spi).1 ≤ 4095 := by
  rw [readVoltage_fst]
  exact decodeFrame_range _ (Nat.mod_lt _ (by decide))

/-! ## The polling loop -/

/-- C9: with both hook commands configured and classification results
`c0` (the seed) and `cs` (one per pass), all 0 or 1: nothing is run for the
seed; the loop makes one pass per result; and the hook invocations of pass `i`
(previous result `(c0 :: cs)[i]`, new result `cs[i]`) are exactly one run of the
on-command when the step is off to on, exactly one run of the off-command when
it is on to off, and none otherwise. -/
theorem hooks_run_exactly_on_transitions (on_cmd off_cmd : String) (c0 : Int)
    (cs : List Int) (h0 : c0 = 0 ∨ c0 = 1) (hcs : ∀ c ∈ cs, c = 0 ∨ c = 1)
    (i : Nat) (hi : i < cs.length) :
    (mainLoop (some on_cmd) (some off_cmd) c0 cs).1.filter isHook = []
    ∧ (mainLoop (some on_cmd) (some off_cmd) c0 cs).2.length = cs.length
    ∧ (((mainLoop (some on_cmd) (some off_cmd) c0 cs).2.getD i (⟨0, 0⟩, [])).2.filter isHook
        = if (c0 :: cs).getD i 0 = 0 ∧ cs.getD i 0 = 1 then [Event.runOn on_cmd]
          else if (c0 :: cs).getD i 0 = 1 ∧ cs.getD i 0 = 0 then [Event.runOff off_cmd]
          else []) := by
  refine ⟨rfl, running_length _ _ _ _, ?_⟩
  show ((running (some on_cmd) (some off_cmd) ⟨c0, c0⟩ cs).getD i (⟨0, 0⟩, [])).2.filter isHook = _
  rw [running_getD _ _ cs c0 i hi]
  have hc : cs.getD i 0 = 0 ∨ cs.getD i 0 = 1 := by
    have := getD_mem_or c0 cs h0 hcs (i + 1)
    simpa using this
  exact loopBody_hooks on_cmd off_cmd _ _ (getD_mem_or c0 cs h0 hcs i) hc

/-- C9, witness: seed off, then on, on, off; the first pass is an off to on
step and runs the on-command once and nothing else. -/
theorem hooks_run_exactly_on_transitions_witness :
    (mainLoop (some "on.sh") (some "off.sh") 0 [1, 1, 0]).1.filter isHook = []
    ∧ (mainLoop (some "on.sh") (some "off.sh") 0 [1, 1, 0]).2.length = 3
    ∧ ((mainLoop (some "on.sh") (some "off.sh") 0 [1, 1, 0]).2.getD 0 (⟨0, 0⟩, [])).2.filter isHook
        = [Event.runOn "on.sh"] :=
  hooks_run_exactly_on_transitions "on.sh" "off.sh" 0 [1, 1, 0] (Or.inl rfl) (by decide) 0
    (by decide)

/-- C10: in the loop, pass `i` (the classification after the seed number
`i + 1`) starts with both state variables equal to the most recent
classification result `(c0 :: cs)[i]`, sleeps first, for 5 time-units if that
result was on and for 30 otherwise, then classifies, and neither sleeps nor
classifies again in the pass; the seed classification is not preceded by a
sleep. -/
theorem sleep_interval_follows_latest_classification (on_cmd off_cmd : Option String)
    (c0 : Int) (cs : List Int) (h0 : c0 = 0 ∨ c0 = 1) (hcs : ∀ c ∈ cs, c = 0 ∨ c = 1)
    (i : Nat) (hi : i < cs.length) :
    (mainLoop on_cmd off_cmd c0 cs).1 = [Event.classify c0]
    ∧ ((mainLoop on_cmd off_cmd c0 cs).2.getD i (⟨0, 0⟩, [])).1.prev_power
        = (c0 :: cs).getD i 0
    ∧ ((mainLoop on_cmd off_cmd c0 cs).2.getD i (⟨0, 0⟩, [])).1.power = (c0 :: cs).getD i 0
    ∧ ∃ rest, ((mainLoop on_cmd off_cmd c0 cs).2.getD i (⟨0, 0⟩, [])).2
          = Event.sleep (if (c0 :: cs).getD i 0 = 1 then 5 else 30)
              :: Event.classify (cs.getD i 0) :: rest
        ∧ rest.filter isSleep = [] ∧ rest.filter isClassify = [] := by
  have hr : (mainLoop on_cmd off_cmd c0 cs).2.getD i (⟨0, 0⟩, [])
      = (⟨(c0 :: cs).getD i 0, (c0 :: cs).getD i 0⟩,
         (loopBody on_cmd off_cmd ⟨(c0 :: cs).getD i 0, (c0 :: cs).getD i 0⟩
            (cs.getD i 0)).1) :=
    running_getD on_cmd off_cmd cs c0 i hi
  rw [hr]
  refine ⟨rfl, rfl, rfl, ?_⟩
  obtain ⟨rest, h1, h2, h3⟩ :=
    loopBody_events on_cmd off_cmd ((c0 :: cs).getD i 0) (cs.getD i 0)
  refine ⟨rest, ?_, h2, h3⟩
  rw [h1]
  rcases getD_mem_or c0 cs h0 hcs i with h | h <;> rw [h] <;> simp

/-- C10, witness: seed on, then off, off; the second pass follows an off
result, so it sleeps 30 before classifying. -/
theorem sleep_interval_follows_latest_classification_witness :
    (mainLoop none (some "off.sh") 1 [0, 0]).1 = [Event.classify 1]
    ∧ ((mainLoop none (some "off.sh") 1 [0, 0]).2.getD 1 (⟨0, 0⟩, [])).1.prev_power = 0
    ∧ ((mainLoop none (some "off.sh") 1 [0, 0]).2.getD 1 (⟨0, 0⟩, [])).1.power = 0
    ∧ ∃ rest, ((mainLoop none (some "off.sh") 1 [0, 0]).2.getD 1 (⟨0, 0⟩, [])).2
          = Event.sleep 30 :: Event.classify 0 :: rest
        ∧ rest.filter isSleep = [] ∧ rest.filter isClassify = [] :=
  sleep_interval_follows_latest_classification none (some "off.sh") 1 [0, 0]
    (Or.inr rfl) (by decide) 1 (by decide)

/-! ## Lemmas: the bits of the channel argument -/

/-- The C expression `x & 0x01` on a C `int` is `x mod 2`. -/
theorem int_land_one (x : Int) : Int.land x 1 = x % 2 := by
  cases x with
  | ofNat m =>
    show Int.land (Int.ofNat m) (Int.ofNat 1) = _
    simp only [Int.land]
    rw [Nat.and_one_is_mod]
    simp
  | negSucc m =>
    show Int.land (Int.negSucc m) (Int.ofNat 1) = _
    simp only [Int.land]
    have h : Nat.ldiff 1 m = (1 - m % 2) := by
      apply Nat.eq_of_testBit_eq
      intro i
      rw [Nat.testBit_ldiff]
      cases i with
      | zero =>
        rcases Nat.mod_two_eq_zero_or_one m with h | h <;> simp [Nat.testBit_zero, h]
      | succ i =>
        rcases Nat.mod_two_eq_zero_or_one m with h | h <;>
          simp [h, Nat.testBit_succ]
    rw [h]
    rw [Int.negSucc_eq]
    omega

/-- The bit `(channel >> n) & 0x01` by division and remainder. -/
theorem chanBit_eq (channel : Int) (n : Nat) :
    chanBit channel n = ((channel / ((2 ^ n : Nat) : Int)) % 2).toNat := by
  unfold chanBit
  rw [int_land_one, Int.shiftRight_eq_div_pow]

/-- A bit is 0 or 1. -/
theorem bitOf_le_one (x : Int) (n : Nat) : bitOf x n = 0 ∨ bitOf x n = 1 := by
  unfold bitOf
  have h := Int.emod_two_eq_zero_or_one (x / ((2 ^ n : Nat) : Int))
  rcases h with h | h <;> rw [h] <;> simp

/-- The bit extracted by `readVoltage` is the bit of the channel argument. -/
theorem chanBit_eq_bitOf (channel : Int) (n : Nat) : chanBit channel n = bitOf channel n :=
  chanBit_eq channel n

/-- The request frame, byte by byte, as bitwise ORs. -/
theorem requestFrame_bits (diff channel : Int) :
    requestFrame diff channel
      = ⟨(1 <<< 2) ||| (if diff = 0 then 1 <<< 1 else 0) ||| bitOf channel 2,
         (bitOf channel 1 <<< 7) ||| (bitOf channel 0 <<< 6), 0⟩ := by
  unfold requestFrame
  simp only [chanBit_eq_bitOf]
  rcases bitOf_le_one channel 2 with h2 | h2 <;> rcases bitOf_le_one channel 1 with h1 | h1 <;>
    rcases bitOf_le_one channel 0 with h0 | h0 <;> by_cases hd : diff = 0 <;>
    rw [h0, h1, h2] <;> simp [hd]

/-- The request frame, byte by byte, as sums of disjoint bits. -/
theorem requestFrame_arith (diff channel : Int) :
    requestFrame diff channel
      = ⟨4 + (if diff = 0 then 2 else 0) + bitOf channel 2,
         128 * bitOf channel 1 + 64 * bitOf channel 0, 0⟩ := by
  rw [requestFrame_bits]
  rcases bitOf_le_one channel 2 with h2 | h2 <;> rcases bitOf_le_one channel 1 with h1 | h1 <;>
    rcases bitOf_le_one channel 0 with h0 | h0 <;> by_cases hd : diff = 0 <;>
    rw [h0, h1, h2] <;> simp [hd]

/-- The decoded value by remainder and product. -/
theorem decodeFrame_eq (buf : Frame) (h2 : buf.b2 < 256) :
    decodeFrame buf = (((buf.b1 % 16) * 256 + buf.b2 : Nat) : Int) := by
  unfold decodeFrame
  have h : buf.b1 &&& 0b1111 = buf.b1 % 16 := Nat.and_pow_two_sub_one_eq_mod buf.b1 4
  rw [h, Nat.shiftLeft_eq]
  have := Nat.mul_add_lt_is_or (i := 8) (b := buf.b2) (by omega) (buf.b1 % 16)
  rw [Nat.mul_comm (buf.b1 % 16), show (2:Nat)^8 = 256 by norm_num] at *
  rw [← this]

/-- A channel in 0..7 is made of its three low bits. -/
theorem bitOf_recompose (x : Int) (h0 : 0 ≤ x) (h7 : x ≤ 7) :
    x = ((4 * bitOf x 2 + 2 * bitOf x 1 + bitOf x 0 : Nat) : Int) := by
  unfold bitOf
  simp
  omega

/-- The three low bits only depend on the argument modulo 8. -/
theorem bitOf_emod_eight (x : Int) (n : Nat) (hn : n ≤ 2) : bitOf (x % 8) n = bitOf x n := by
  unfold bitOf
  interval_cases n <;> simp <;> omega

/-! ## Lemmas: printing and scanning a decimal integer -/

/-- Reading back a digit character. -/
theorem digitValue_digitChar (d : Nat) (h : d < 10) : digitValue (digitChar d) = some d := by
  interval_cases d <;> decide

/-- A digit character is not white space. -/
theorem isSpace_digitChar (d : Nat) (h : d < 10) : isSpace (digitChar d) = false := by
  interval_cases d <;> decide

/-- A digit character is not a sign. -/
theorem digitChar_ne_sign (d : Nat) (h : d < 10) : digitChar d ≠ '-' ∧ digitChar d ≠ '+' := by
  interval_cases d <;> decide

/-- The number written by a digit list with one more digit. -/
theorem digitsValue_append (ds : List Nat) (d : Nat) :
    digitsValue (ds ++ [d]) = 10 * digitsValue ds + d := by
  simp [digitsValue, List.foldl_append]

/-- With enough fuel the digit list of `n` is not empty, holds digits only and
writes `n`. -/
theorem natDigitsAux_spec (fuel : Nat) :
    ∀ (n : Nat) (acc : List Nat), n < fuel →
      ∃ front, front ≠ [] ∧ (∀ d ∈ front, d < 10) ∧ digitsValue front = n
        ∧ natDigitsAux fuel n acc = front ++ acc := by
  induction fuel with
  | zero => intro n acc h; omega
  | succ fuel ih =>
    intro n acc h
    by_cases hn : n < 10
    · refine ⟨[n], by simp, ?_, by simp [digitsValue], by simp [natDigitsAux, hn]⟩
      intro d hd
      simp at hd
      omega
    · obtain ⟨front, h1, h2, h3, h4⟩ := ih (n / 10) (n % 10 :: acc) (by omega)
      refine ⟨front ++ [n % 10], by simp, ?_, ?_, ?_⟩
      · intro d hd
        rcases List.mem_append.mp hd with hd | hd
        · exact h2 d hd
        · simp at hd; omega
      · rw [digitsValue_append, h3]; omega
      · simp [natDigitsAux, hn, h4]

/-- The digit list of `n` is not empty, holds digits only and writes `n`. -/
theorem natDigits_spec (n : Nat) :
    ∃ front, front ≠ [] ∧ (∀ d ∈ front, d < 10) ∧ digitsValue front = n
      ∧ natDigits n = front := by
  obtain ⟨front, h1, h2, h3, h4⟩ := natDigitsAux_spec (n + 1) n [] (by omega)
  exact ⟨front, h1, h2, h3, by simpa [natDigits] using h4⟩

/-- Scanning printed digits stops at the first character that is not a digit. -/
theorem leadingDigits_map (ds : List Nat) (h : ∀ d ∈ ds, d < 10) (rest : List Char)
    (hrest : leadingDigits rest = []) :
    leadingDigits (ds.map digitChar ++ rest) = ds := by
  induction ds with
  | nil => simpa using hrest
  | cons d ds ih =>
    have hd : d < 10 := h d (List.mem_cons_self _ _)
    have h' := ih (fun x hx => h x (List.mem_cons_of_mem _ hx))
    simp only [List.map_cons, List.cons_append, leadingDigits, digitValue_digitChar d hd]
    exact congrArg (fun l => d :: l) h'

/-- Scanning the printed digits of `n` yields `n`. -/
theorem scanNat_natDigits (n : Nat) (rest : List Char) (hrest : leadingDigits rest = []) :
    scanNat ((natDigits n).map digitChar ++ rest) = some n := by
  obtain ⟨front, h1, h2, h3, h4⟩ := natDigits_spec n
  rw [h4]
  unfold scanNat
  rw [leadingDigits_map front h2 rest hrest]
  cases front with
  | nil => exact absurd rfl h1
  | cons d ds => simp [h3]

/-- The scan of a text that does not start with white space. -/
theorem scanInt_cons (c : Char) (cs : List Char) (h : isSpace c = false) :
    scanInt (c :: cs)
      = if c = '-' then Option.map (fun n : Nat => -(n : Int)) (scanNat cs)
        else if c = '+' then Option.map (fun n : Nat => (n : Int)) (scanNat cs)
        else Option.map (fun n : Nat => (n : Int)) (scanNat (c :: cs)) := by
  unfold scanInt
  rw [List.dropWhile_cons_of_neg (by simp [h])]

/-- Scanning the printed text of `v` yields `v`. -/
theorem scanInt_formatInt (v : Int) (rest : List Char) (hrest : leadingDigits rest = []) :
    scanInt (formatInt v ++ rest) = some v := by
  obtain ⟨front, h1, h2, h3, h4⟩ := natDigits_spec v.natAbs
  have hs := scanNat_natDigits v.natAbs rest hrest
  unfold formatInt
  by_cases hv : v < 0
  · have hneg : -(v.natAbs : Int) = v := by omega
    simp only [hv, if_true, List.cons_append]
    rw [scanInt_cons _ _ (by decide), if_pos rfl, hs, Option.map_some', hneg]
  · have hpos : (v.natAbs : Int) = v := by omega
    simp only [hv, if_false]
    rw [h4] at hs ⊢
    cases front with
    | nil => exact absurd rfl h1
    | cons d ds =>
      have hd : d < 10 := h2 d (List.mem_cons_self _ _)
      rw [List.map_cons, List.cons_append] at hs ⊢
      rw [scanInt_cons _ _ (isSpace_digitChar d hd), if_neg (digitChar_ne_sign d hd).1,
        if_neg (digitChar_ne_sign d hd).2, hs, Option.map_some', hpos]

/-- A value in the range of `int` is stored unchanged. -/
theorem toInt32_of_range (v : Int) (h1 : -2 ^ 31 ≤ v) (h2 : v < 2 ^ 31) : toInt32 v = v := by
  unfold toInt32
  omega

/-- What line 217 writes, line 168 reads back. -/
theorem fscanf_fprintf_pid (p old : Int) (h1 : -2 ^ 31 ≤ p) (h2 : p < 2 ^ 31) :
    fscanf_pid (fprintf_pid p) old = p := by
  unfold fscanf_pid fprintf_pid
  rw [scanInt_formatInt p _ (by decide)]
  exact toInt32_of_range p h1 h2

/-! ## Lemmas: option parsing and the paths of `main` -/

/-- Without a `-p` option the path variable keeps its value. -/
theorem foldl_parseStep_path (opts : List Opt) (h : ∀ a, Opt.pidfile a ∉ opts) :
    ∀ s : ParseState, (opts.foldl parseStep s).pid_file_path = s.pid_file_path := by
  induction opts with
  | nil => intro s; rfl
  | cons o os ih =>
    intro s
    have hos : ∀ a, Opt.pidfile a ∉ os := fun a ha => h a (List.mem_cons_of_mem _ ha)
    rw [List.foldl_cons, ih hos]
    cases o with
    | pidfile a => exact absurd (List.mem_cons_self _ _) (h a)
    | daemonize => rfl
    | kill => rfl
    | other => rfl

/-- Without a `-d` option a kill flag stays set. -/
theorem foldl_parseStep_flag (opts : List Opt) (h : Opt.daemonize ∉ opts) :
    ∀ s : ParseState, s.flag = FLAG_KILL → (opts.foldl parseStep s).flag = FLAG_KILL := by
  induction opts with
  | nil => intro s hs; exact hs
  | cons o os ih =>
    intro s hs
    have hos : Opt.daemonize ∉ os := fun ha => h (List.mem_cons_of_mem _ ha)
    rw [List.foldl_cons]
    apply ih hos
    cases o with
    | pidfile a => exact hs
    | daemonize => exact absurd (List.mem_cons_self _ _) h
    | kill => rfl
    | other => exact hs

/-- A `-k` option that no `-d` option follows leaves `flag == FLAG_KILL`. -/
theorem parseArgs_kill_last (pre post : List Opt) (h : Opt.daemonize ∉ post) :
    (parseArgs (pre ++ Opt.kill :: post)).flag = FLAG_KILL := by
  unfold parseArgs
  rw [List.foldl_append, List.foldl_cons]
  exact foldl_parseStep_flag post h _ rfl

/-- The run of `main` when no path was given. -/
theorem main_no_path (opts : List Opt) (w : World)
    (hp : (parseArgs opts).pid_file_path = none) :
    main opts w
      = ⟨Outcome.exit (-1), [Action.openlog, Action.printf "--pid-file required\n"], w⟩ := by
  unfold main
  simp only [hp]
  rfl

/-- The run of the kill path when the PID file cannot be opened. -/
theorem main_kill_unreadable (opts : List Opt) (w : World) (path : String)
    (hf : (parseArgs opts).flag = FLAG_KILL) (hp : (parseArgs opts).pid_file_path = some path)
    (hfile : w.files path = none) :
    main opts w
      = ⟨Outcome.exit (-1),
          [Action.openlog, Action.fopenRead path false, Action.syslogErr "no daemon started.\n"],
          w⟩ := by
  unfold main
  simp only [hp, hf, hfile]
  rfl

/-- The run of the kill path when the PID file can be opened. -/
theorem main_kill_readable (opts : List Opt) (w : World) (path : String) (content : List Char)
    (hf : (parseArgs opts).flag = FLAG_KILL) (hp : (parseArgs opts).pid_file_path = some path)
    (hfile : w.files path = some content) :
    main opts w
      = if (sysKill w (fscanf_pid content w.uninit_pid)).1 = 0 then
          ⟨Outcome.exit 0,
            [Action.openlog, Action.fopenRead path true,
              Action.kill (fscanf_pid content w.uninit_pid) SIGKILL
                (sysKill w (fscanf_pid content w.uninit_pid)).1,
              Action.syslogInfo "daemon stopped.\n"],
            (sysKill w (fscanf_pid content w.uninit_pid)).2⟩
        else
          ⟨Outcome.exit 0,
            [Action.openlog, Action.fopenRead path true,
              Action.kill (fscanf_pid content w.uninit_pid) SIGKILL
                (sysKill w (fscanf_pid content w.uninit_pid)).1],
            (sysKill w (fscanf_pid content w.uninit_pid)).2⟩ := by
  unfold main
  simp only [hp, hf, hfile]
  rfl

/-- The value `kill` returns. -/
theorem sysKill_fst (w : World) (pid : Int) :
    (sysKill w pid).1 = if pid ∈ w.live then 0 else -1 := by
  unfold sysKill
  split <;> rfl

/-- The call of `kill` leaves the files alone. -/
theorem sysKill_files (w : World) (pid : Int) : (sysKill w pid).2.files = w.files := by
  unfold sysKill
  split <;> rfl

/-- The call of `kill` leaves the indeterminate value alone. -/
theorem sysKill_uninit (w : World) (pid : Int) :
    (sysKill w pid).2.uninit_pid = w.uninit_pid := by
  unfold sysKill
  split <;> rfl

/-- After `kill` the process cannot be signalled any more. -/
theorem sysKill_not_live (w : World) (pid : Int) : pid ∉ (sysKill w pid).2.live := by
  unfold sysKill
  split
  · simp
  · assumption

/-- The kill path exits, opens the PID file for reading and does nothing of the
Starting path. -/
theorem main_kill_trace (opts : List Opt) (w : World) (path : String)
    (hf : (parseArgs opts).flag = FLAG_KILL) (hp : (parseArgs opts).pid_file_path = some path) :
    (∃ code, (main opts w).outcome = Outcome.exit code)
    ∧ (∃ ok, Action.fopenRead path ok ∈ (main opts w).trace)
    ∧ (main opts w).trace.filter isStartAction = []
    ∧ (main opts w).world.files = w.files := by
  cases hfile : w.files path with
  | none =>
    rw [main_kill_unreadable opts w path hf hp hfile]
    exact ⟨⟨-1, rfl⟩, ⟨false, by simp⟩, rfl, rfl⟩
  | some content =>
    rw [main_kill_readable opts w path content hf hp hfile]
    split
    · exact ⟨⟨0, rfl⟩, ⟨true, by simp⟩, rfl, sysKill_files _ _⟩
    · exact ⟨⟨0, rfl⟩, ⟨true, by simp⟩, rfl, sysKill_files _ _⟩

/-- The start path, once the PID file could be created: the file holds the
printed process identifier. -/
theorem main_start_world (opts : List Opt) (w : World) (path : String)
    (hf : (parseArgs opts).flag ≠ FLAG_KILL) (hp : (parseArgs opts).pid_file_path = some path)
    (hd : ¬ ((parseArgs opts).flag = FLAG_DAEMONIZE ∧ w.daemon_ret = -1))
    (hc : w.creatable path = true) :
    (main opts w).world.files path = some (fprintf_pid w.pid)
    ∧ (main opts w).world.live = w.live
    ∧ (main opts w).world.uninit_pid = w.uninit_pid
    ∧ (main opts w).trace.filter isFileAction
        = [Action.fopenWrite path true, Action.fprintf path (fprintf_pid w.pid)] := by
  unfold main
  simp only [hp, hf, hd, hc, if_false, if_true]
  by_cases hs : w.spi_fd < 0 <;> by_cases hdm : (parseArgs opts).flag = FLAG_DAEMONIZE <;>
    simp [hs, hdm, isFileAction]

/-! ## Lemmas: a constant offset -/

/-- Adding a constant to every sample adds a multiple of the geometric sum. -/
theorem dftCoeff_add_const (f g : List Int) (N : Nat) (k c : Int)
    (hg : ∀ i : Nat, i < N → g.getD i 0 = f.getD i 0 + c) :
    dftCoeff g N k = dftCoeff f N k + (c : ℂ) * ∑ i in Finset.range N, twiddle N k ^ i := by
  rw [dftCoeff_eq_sum_pow, dftCoeff_eq_sum_pow, Finset.mul_sum, ← Finset.sum_add_distrib]
  refine Finset.sum_congr rfl (fun i hi => ?_)
  rw [hg i (Finset.mem_range.mp hi)]
  push_cast
  ring

/-- Adding a constant to every sample does not change a bin strictly between 0
and `N`. -/
theorem power_spectral_add_const (f g : List Int) (N : Nat) (k c : Int) (hN : 1 ≤ N)
    (hk0 : 0 < k) (hkN : k < (N : Int))
    (hg : ∀ i : Nat, i < N → g.getD i 0 = f.getD i 0 + c) :
    power_spectral g (N : Int) k = power_spectral f (N : Int) k := by
  have hnd : ¬ (N : Int) ∣ k := fun h => by
    have := Int.le_of_dvd hk0 h
    omega
  rw [power_spectral_eq_abs, power_spectral_eq_abs, dftCoeff_add_const f g N k c hg,
    geom_sum_twiddle N k hN hnd, mul_zero, add_zero]

/-! ## The kill path -/

/-- The run by process `c` of the kill path on a readable PID file, when the
signal does not reach `c` itself. -/
theorem mainAs_kill_readable (c : Caller) (opts : List Opt) (w : World) (path : String)
    (content : List Char)
    (hf : (parseArgs opts).flag = FLAG_KILL) (hp : (parseArgs opts).pid_file_path = some path)
    (hfile : w.files path = some content)
    (hc : killReachesCaller c (fscanf_pid content w.uninit_pid) = false) :
    mainAs c opts w = some (main opts w) := by
  unfold mainAs
  simp only [hp, hf, hfile, hc]
  rfl

/-- C11, counterexample: the kill command on the PID file `/run/pot.pid`, which
holds `4242` and a newline, when process 4242 cannot be signalled (it does not
exist) and the kill command runs as process 777: `kill (4242, SIGKILL)` is
called and returns -1, the exit code is 0, and "daemon stopped." is not
logged. -/
theorem kill_log_needs_delivery :
    mainAs ⟨777, 777⟩ [Opt.pidfile "/run/pot.pid", Opt.kill] (sampleWorld [])
        = some (main [Opt.pidfile "/run/pot.pid", Opt.kill] (sampleWorld []))
    ∧ (parseArgs [Opt.pidfile "/run/pot.pid", Opt.kill]).flag = FLAG_KILL
    ∧ (parseArgs [Opt.pidfile "/run/pot.pid", Opt.kill]).pid_file_path = some "/run/pot.pid"
    ∧ (sampleWorld []).files "/run/pot.pid" = some (formatInt 4242 ++ ['\n'])
    ∧ (main [Opt.pidfile "/run/pot.pid", Opt.kill] (sampleWorld [])).outcome = Outcome.exit 0
    ∧ (main [Opt.pidfile "/run/pot.pid", Opt.kill] (sampleWorld [])).trace
        = [Action.openlog, Action.fopenRead "/run/pot.pid" true, Action.kill 4242 SIGKILL (-1)]
    ∧ Action.syslogInfo "daemon stopped.\n"
        ∉ (main [Opt.pidfile "/run/pot.pid", Opt.kill] (sampleWorld [])).trace := by
  refine ⟨mainAs_kill_readable ⟨777, 777⟩ [Opt.pidfile "/run/pot.pid", Opt.kill]
    (sampleWorld []) "/run/pot.pid" ['4', '2', '4', '2', '\n'] (by decide) (by decide)
    (by decide) (by decide), ?_⟩
  decide

/-- A PID file that holds `0` makes the kill command signal its own process
group: the process is killed and `main` does not return. -/
theorem mainAs_kill_own_group (c : Caller) (w : World)
    (hfile : w.files "/run/pot.pid" = some ['0', '\n']) :
    mainAs c [Opt.pidfile "/run/pot.pid", Opt.kill] w = none := by
  have hp : (parseArgs [Opt.pidfile "/run/pot.pid", Opt.kill]).pid_file_path
      = some "/run/pot.pid" := by decide
  have hf : (parseArgs [Opt.pidfile "/run/pot.pid", Opt.kill]).flag = FLAG_KILL := by decide
  have h0 : fscanf_pid ['0', '\n'] w.uninit_pid = 0 := by
    have h := fscanf_fprintf_pid 0 w.uninit_pid (by decide) (by decide)
    rwa [show fprintf_pid 0 = ['0', '\n'] by decide] at h
  unfold mainAs
  simp only [hp, hf, hfile, h0]
  simp [killReachesCaller]

/-- C11, amended: for every process identifier `N` (positive, in the range of
`int`, and not the identifier of the process that runs the kill command), the
kill command against a readable PID file that contains `N` as decimal text
followed by a newline calls `kill (N, SIGKILL)` once and returns exit code 0;
when that call succeeds (the process could be signalled) the run is exactly
`openlog`, the `fopen`, the `kill` and the log "daemon stopped.", and when it
fails the run is exactly `openlog`, the `fopen` and the `kill`: nothing is
logged. -/
theorem kill_readable_pidfile (c : Caller) (opts : List Opt) (w : World) (path : String)
    (N : Int)
    (hf : (parseArgs opts).flag = FLAG_KILL) (hp : (parseArgs opts).pid_file_path = some path)
    (hN0 : 0 < N) (hN2 : N < 2 ^ 31) (hself : N ≠ c.pid)
    (hfile : w.files path = some (formatInt N ++ ['\n'])) :
    mainAs c opts w = some (main opts w)
    ∧ (main opts w).outcome = Outcome.exit 0
    ∧ (main opts w).trace
        = (if N ∈ w.live then
            [Action.openlog, Action.fopenRead path true, Action.kill N SIGKILL 0,
              Action.syslogInfo "daemon stopped.\n"]
          else [Action.openlog, Action.fopenRead path true, Action.kill N SIGKILL (-1)])
    ∧ (main opts w).trace.filter isKill
        = [Action.kill N SIGKILL (if N ∈ w.live then 0 else -1)]
    ∧ (Action.syslogInfo "daemon stopped.\n" ∈ (main opts w).trace ↔ N ∈ w.live) := by
  have hpid : fscanf_pid (formatInt N ++ ['\n']) w.uninit_pid = N :=
    fscanf_fprintf_pid N w.uninit_pid (by omega) hN2
  have hreach : killReachesCaller c (fscanf_pid (formatInt N ++ ['\n']) w.uninit_pid)
      = false := by
    rw [hpid]
    simp only [killReachesCaller, Bool.or_eq_false_iff, Bool.and_eq_false_iff,
      decide_eq_false_iff_not]
    exact ⟨⟨hself, by omega⟩, Or.inl (by omega)⟩
  refine ⟨mainAs_kill_readable c opts w path _ hf hp hfile hreach, ?_⟩
  rw [main_kill_readable opts w path _ hf hp hfile, hpid, sysKill_fst]
  by_cases hl : N ∈ w.live <;> simp [hl, isKill]

/-- C11, witness: the PID file holds `4242`, process 4242 is alive, and the
kill command runs as process 777. -/
theorem kill_readable_pidfile_witness :
    mainAs ⟨777, 777⟩ [Opt.pidfile "/run/pot.pid", Opt.kill] (sampleWorld [4242])
        = some (main [Opt.pidfile "/run/pot.pid", Opt.kill] (sampleWorld [4242]))
    ∧ (main [Opt.pidfile "/run/pot.pid", Opt.kill] (sampleWorld [4242])).outcome
        = Outcome.exit 0
    ∧ (main [Opt.pidfile "/run/pot.pid", Opt.kill] (sampleWorld [4242])).trace
        = (if (4242 : Int) ∈ (sampleWorld [4242]).live then
            [Action.openlog, Action.fopenRead "/run/pot.pid" true, Action.kill 4242 SIGKILL 0,
              Action.syslogInfo "daemon stopped.\n"]
          else
            [Action.openlog, Action.fopenRead "/run/pot.pid" true,
              Action.kill 4242 SIGKILL (-1)])
    ∧ (main [Opt.pidfile "/run/pot.pid", Opt.kill] (sampleWorld [4242])).trace.filter isKill
        = [Action.kill 4242 SIGKILL (if (4242 : Int) ∈ (sampleWorld [4242]).live then 0 else -1)]
    ∧ (Action.syslogInfo "daemon stopped.\n"
          ∈ (main [Opt.pidfile "/run/pot.pid", Opt.kill] (sampleWorld [4242])).trace
        ↔ (4242 : Int) ∈ (sampleWorld [4242]).live) :=
  kill_readable_pidfile ⟨777, 777⟩ [Opt.pidfile "/run/pot.pid", Opt.kill] (sampleWorld [4242])
    "/run/pot.pid" 4242 (by decide) (by decide) (by decide) (by decide) (by decide)
    (by decide)

/-- C12: for every PID file path that cannot be opened for reading, the kill
command returns the non-zero exit code -1, logs the error "no daemon started.",
sends no signal, writes no file and leaves the outside world as it was. -/
theorem kill_unreadable_pidfile (opts : List Opt) (w : World) (path : String)
    (hf : (parseArgs opts).flag = FLAG_KILL) (hp : (parseArgs opts).pid_file_path = some path)
    (hfile : w.files path = none) :
    (main opts w).outcome = Outcome.exit (-1)
    ∧ (main opts w).outcome ≠ Outcome.exit 0
    ∧ (main opts w).trace
        = [Action.openlog, Action.fopenRead path false,
            Action.syslogErr "no daemon started.\n"]
    ∧ (main opts w).trace.filter isKill = []
    ∧ (main opts w).trace.filter isStartAction = []
    ∧ (main opts w).world = w := by
  rw [main_kill_unreadable opts w path hf hp hfile]
  refine ⟨rfl, ?_, rfl, rfl, rfl, rfl⟩
  intro h
  injection h with h
  exact absurd h (by decide)

/-- C12, witness: the kill command on a path at which there is no file. -/
theorem kill_unreadable_pidfile_witness :
    (main [Opt.kill, Opt.pidfile "/tmp/none.pid"] (sampleWorld [4242])).outcome = Outcome.exit (-1)
    ∧ (main [Opt.kill, Opt.pidfile "/tmp/none.pid"] (sampleWorld [4242])).outcome ≠ Outcome.exit 0
    ∧ (main [Opt.kill, Opt.pidfile "/tmp/none.pid"] (sampleWorld [4242])).trace
        = [Action.openlog, Action.fopenRead "/tmp/none.pid" false,
            Action.syslogErr "no daemon started.\n"]
    ∧ (main [Opt.kill, Opt.pidfile "/tmp/none.pid"] (sampleWorld [4242])).trace.filter isKill = []
    ∧ (main [Opt.kill, Opt.pidfile "/tmp/none.pid"] (sampleWorld [4242])).trace.filter
        isStartAction = []
    ∧ (main [Opt.kill, Opt.pidfile "/tmp/none.pid"] (sampleWorld [4242])).world
        = sampleWorld [4242] :=
  kill_unreadable_pidfile [Opt.kill, Opt.pidfile "/tmp/none.pid"] (sampleWorld [4242])
    "/tmp/none.pid" (by decide) (by decide) (by decide)

/-- C13, counterexample: the kill command run twice on `/run/pot.pid` while
process 4242 is alive.  The first run kills it and logs "daemon stopped."; the
PID file stays in place with the same content; the second run opens it, calls
`kill` again (which returns -1), logs nothing and returns exit code 0, not the
no-daemon error path. -/
theorem second_kill_is_silent :
    (main [Opt.pidfile "/run/pot.pid", Opt.kill] (sampleWorld [4242])).trace
        = [Action.openlog, Action.fopenRead "/run/pot.pid" true, Action.kill 4242 SIGKILL 0,
            Action.syslogInfo "daemon stopped.\n"]
    ∧ (main [Opt.pidfile "/run/pot.pid", Opt.kill] (sampleWorld [4242])).world.live = []
    ∧ (main [Opt.pidfile "/run/pot.pid", Opt.kill] (sampleWorld [4242])).world.files
          "/run/pot.pid" = some ['4', '2', '4', '2', '\n']
    ∧ (main [Opt.pidfile "/run/pot.pid", Opt.kill]
          (main [Opt.pidfile "/run/pot.pid", Opt.kill] (sampleWorld [4242])).world).outcome
        = Outcome.exit 0
    ∧ (main [Opt.pidfile "/run/pot.pid", Opt.kill]
          (main [Opt.pidfile "/run/pot.pid", Opt.kill] (sampleWorld [4242])).world).trace
        = [Action.openlog, Action.fopenRead "/run/pot.pid" true,
            Action.kill 4242 SIGKILL (-1)] := by
  decide

/-- C13, amended: invoking the kill path twice in succession on the same PID
file path does not crash.  The kill path leaves the PID file in place, so after
a first invocation that read the file and terminated the process it names, the
second invocation opens the same stale file, signals the same process
identifier again (the call fails), logs nothing and returns exit code 0; it
does not log the no-daemon error. -/
theorem kill_twice (opts : List Opt) (w : World) (path : String) (content : List Char)
    (hf : (parseArgs opts).flag = FLAG_KILL) (hp : (parseArgs opts).pid_file_path = some path)
    (hfile : w.files path = some content)
    (hlive : fscanf_pid content w.uninit_pid ∈ w.live) :
    (main opts w).outcome = Outcome.exit 0
    ∧ (main opts w).world.files = w.files
    ∧ (main opts (main opts w).world).outcome = Outcome.exit 0
    ∧ (main opts (main opts w).world).trace
        = [Action.openlog, Action.fopenRead path true,
            Action.kill (fscanf_pid content w.uninit_pid) SIGKILL (-1)]
    ∧ Action.syslogErr "no daemon started.\n" ∉ (main opts (main opts w).world).trace := by
  have h1 : main opts w
      = ⟨Outcome.exit 0,
          [Action.openlog, Action.fopenRead path true,
            Action.kill (fscanf_pid content w.uninit_pid) SIGKILL
              (sysKill w (fscanf_pid content w.uninit_pid)).1,
            Action.syslogInfo "daemon stopped.\n"],
          (sysKill w (fscanf_pid content w.uninit_pid)).2⟩ := by
    rw [main_kill_readable opts w path content hf hp hfile, sysKill_fst, if_pos hlive, if_pos rfl]
  have hfiles : (main opts w).world.files = w.files := by
    rw [h1]; exact sysKill_files _ _
  have hun : (main opts w).world.uninit_pid = w.uninit_pid := by
    rw [h1]; exact sysKill_uninit _ _
  have hgone : fscanf_pid content w.uninit_pid ∉ (main opts w).world.live := by
    rw [h1]; exact sysKill_not_live _ _
  have hfile2 : (main opts w).world.files path = some content := by rw [hfiles, hfile]
  have h2 := main_kill_readable opts (main opts w).world path content hf hp hfile2
  rw [hun, sysKill_fst, if_neg hgone] at h2
  simp only [show ¬ ((-1 : Int) = 0) by decide, if_false] at h2
  refine ⟨by rw [h1], hfiles, by rw [h2], by rw [h2], ?_⟩
  rw [h2]
  simp

/-- C13, witness: the PID file holds `4242` and process 4242 is alive at the
first invocation. -/
theorem kill_twice_witness :
    (main [Opt.pidfile "/run/pot.pid", Opt.kill] (sampleWorld [4242])).outcome = Outcome.exit 0
    ∧ (main [Opt.pidfile "/run/pot.pid", Opt.kill] (sampleWorld [4242])).world.files
        = (sampleWorld [4242]).files
    ∧ (main [Opt.pidfile "/run/pot.pid", Opt.kill]
          (main [Opt.pidfile "/run/pot.pid", Opt.kill] (sampleWorld [4242])).world).outcome
        = Outcome.exit 0
    ∧ (main [Opt.pidfile "/run/pot.pid", Opt.kill]
          (main [Opt.pidfile "/run/pot.pid", Opt.kill] (sampleWorld [4242])).world).trace
        = [Action.openlog, Action.fopenRead "/run/pot.pid" true,
            Action.kill (fscanf_pid ['4', '2', '4', '2', '\n'] (sampleWorld [4242]).uninit_pid)
              SIGKILL (-1)]
    ∧ Action.syslogErr "no daemon started.\n"
        ∉ (main [Opt.pidfile "/run/pot.pid", Opt.kill]
            (main [Opt.pidfile "/run/pot.pid", Opt.kill] (sampleWorld [4242])).world).trace :=
  kill_twice [Opt.pidfile "/run/pot.pid", Opt.kill] (sampleWorld [4242]) "/run/pot.pid"
    ['4', '2', '4', '2', '\n'] (by decide) (by decide) (by decide) (by decide)

/-! ## Option parsing -/

/-- C14, counterexample: the command line `-p /run/pot.pid -k -d` supplies a path
and includes the kill flag, but the later `-d` overwrites `flag`; `main`
detaches, writes the PID file, sets up the bus and enters the polling loop. -/
theorem kill_flag_overridden :
    Opt.kill ∈ [Opt.pidfile "/run/pot.pid", Opt.kill, Opt.daemonize]
    ∧ (parseArgs [Opt.pidfile "/run/pot.pid", Opt.kill, Opt.daemonize]).pid_file_path
        = some "/run/pot.pid"
    ∧ (parseArgs [Opt.pidfile "/run/pot.pid", Opt.kill, Opt.daemonize]).flag = FLAG_DAEMONIZE
    ∧ (main [Opt.pidfile "/run/pot.pid", Opt.kill, Opt.daemonize] (sampleWorld [4242])).outcome
        = Outcome.polling none none
    ∧ (main [Opt.pidfile "/run/pot.pid", Opt.kill, Opt.daemonize] (sampleWorld [4242])).trace
        = [Action.openlog, Action.daemon 0, Action.syslogInfo "daemon started.\n",
            Action.fopenWrite "/run/pot.pid" true,
            Action.fprintf "/run/pot.pid" ['4', '2', '4', '2', '\n'],
            Action.wiringPiSPISetup 0 1000000 3] := by
  decide

/-- C14, amended: for every command line that supplies a PID file path and
includes the kill flag with no daemonize flag after it (the later of `-k` and
`-d` decides), `main` takes the Stopping path: it opens the PID file for
reading and exits, and never detaches, writes the PID file, sets up the bus or
enters the polling loop. -/
theorem kill_flag_last_takes_stopping_path (pre post : List Opt) (w : World) (path : String)
    (hpost : Opt.daemonize ∉ post)
    (hp : (parseArgs (pre ++ Opt.kill :: post)).pid_file_path = some path) :
    (∃ code, (main (pre ++ Opt.kill :: post) w).outcome = Outcome.exit code)
    ∧ (∃ ok, Action.fopenRead path ok ∈ (main (pre ++ Opt.kill :: post) w).trace)
    ∧ (main (pre ++ Opt.kill :: post) w).trace.filter isStartAction = []
    ∧ (main (pre ++ Opt.kill :: post) w).world.files = w.files :=
  main_kill_trace _ w path (parseArgs_kill_last pre post hpost) hp

/-- C14, witness: the command line `-d -k -p /run/pot.pid`. -/
theorem kill_flag_last_takes_stopping_path_witness :
    (∃ code, (main ([Opt.daemonize] ++ Opt.kill :: [Opt.pidfile "/run/pot.pid"])
        (sampleWorld [4242])).outcome = Outcome.exit code)
    ∧ (∃ ok, Action.fopenRead "/run/pot.pid" ok
        ∈ (main ([Opt.daemonize] ++ Opt.kill :: [Opt.pidfile "/run/pot.pid"])
            (sampleWorld [4242])).trace)
    ∧ (main ([Opt.daemonize] ++ Opt.kill :: [Opt.pidfile "/run/pot.pid"])
        (sampleWorld [4242])).trace.filter isStartAction = []
    ∧ (main ([Opt.daemonize] ++ Opt.kill :: [Opt.pidfile "/run/pot.pid"])
        (sampleWorld [4242])).world.files = (sampleWorld [4242]).files :=
  kill_flag_last_takes_stopping_path [Opt.daemonize] [Opt.pidfile "/run/pot.pid"]
    (sampleWorld [4242]) "/run/pot.pid" (by decide) (by decide)

/-- C15: for every command line that supplies no PID file path, whatever other
flags it has, `main` ends at once with exit code -1 after printing
"--pid-file required": no signal, no access to a PID file, no detaching, no bus
set-up, and the outside world is left as it was. -/
theorem missing_pidfile_is_fatal (opts : List Opt) (w : World)
    (h : ∀ a, Opt.pidfile a ∉ opts) :
    (main opts w).outcome = Outcome.exit (-1)
    ∧ (main opts w).trace = [Action.openlog, Action.printf "--pid-file required\n"]
    ∧ (main opts w).trace.filter isKill = []
    ∧ (main opts w).trace.filter isFileAction = []
    ∧ (main opts w).trace.filter isStartAction = []
    ∧ (main opts w).world = w := by
  have hp : (parseArgs opts).pid_file_path = none := foldl_parseStep_path opts h _
  rw [main_no_path opts w hp]
  exact ⟨rfl, rfl, rfl, rfl, rfl, rfl⟩

/-- C15, witness: the command line `-k -d --help`. -/
theorem missing_pidfile_is_fatal_witness :
    (main [Opt.kill, Opt.daemonize, Opt.other] (sampleWorld [4242])).outcome = Outcome.exit (-1)
    ∧ (main [Opt.kill, Opt.daemonize, Opt.other] (sampleWorld [4242])).trace
        = [Action.openlog, Action.printf "--pid-file required\n"]
    ∧ (main [Opt.kill, Opt.daemonize, Opt.other] (sampleWorld [4242])).trace.filter isKill = []
    ∧ (main [Opt.kill, Opt.daemonize, Opt.other] (sampleWorld [4242])).trace.filter
        isFileAction = []
    ∧ (main [Opt.kill, Opt.daemonize, Opt.other] (sampleWorld [4242])).trace.filter
        isStartAction = []
    ∧ (main [Opt.kill, Opt.daemonize, Opt.other] (sampleWorld [4242])).world
        = sampleWorld [4242] :=
  missing_pidfile_is_fatal [Opt.kill, Opt.daemonize, Opt.other] (sampleWorld [4242])
    (by simp)

/-! ## The PID file -/

/-- C16: for every process identifier `p` (in the range of `int`), the Starting
step writes to the PID file the decimal text of `p` (a minus sign if negative,
then the decimal digits of the absolute value) followed by one newline;
reading that content the way the kill path does gives back exactly `p`; and a
kill command run afterwards on the same path signals `p`. -/
theorem pid_file_round_trip (opts opts' : List Opt) (w : World) (path : String) (p : Int)
    (hf : (parseArgs opts).flag ≠ FLAG_KILL) (hp : (parseArgs opts).pid_file_path = some path)
    (hd : ¬ ((parseArgs opts).flag = FLAG_DAEMONIZE ∧ w.daemon_ret = -1))
    (hc : w.creatable path = true)
    (hpid : w.pid = p) (hp1 : -2 ^ 31 ≤ p) (hp2 : p < 2 ^ 31)
    (hf' : (parseArgs opts').flag = FLAG_KILL)
    (hp' : (parseArgs opts').pid_file_path = some path) :
    (main opts w).trace.filter isFileAction
        = [Action.fopenWrite path true, Action.fprintf path (formatInt p ++ ['\n'])]
    ∧ (main opts w).world.files path = some (formatInt p ++ ['\n'])
    ∧ (∃ ds : List Nat, ds ≠ [] ∧ (∀ d ∈ ds, d < 10) ∧ digitsValue ds = p.natAbs
        ∧ formatInt p = (if p < 0 then ['-'] else []) ++ ds.map digitChar)
    ∧ (∀ old : Int, fscanf_pid (formatInt p ++ ['\n']) old = p)
    ∧ (main opts' (main opts w).world).trace.filter isKill
        = [Action.kill p SIGKILL (if p ∈ w.live then 0 else -1)] := by
  obtain ⟨h1, h2, h3, h4⟩ := main_start_world opts w path hf hp hd hc
  rw [hpid] at h1 h4
  have hrt : ∀ old : Int, fscanf_pid (formatInt p ++ ['\n']) old = p :=
    fun old => fscanf_fprintf_pid p old hp1 hp2
  refine ⟨h4, h1, ?_, hrt, ?_⟩
  · obtain ⟨ds, d1, d2, d3, d4⟩ := natDigits_spec p.natAbs
    refine ⟨ds, d1, d2, d3, ?_⟩
    unfold formatInt
    rw [d4]
    by_cases hneg : p < 0 <;> simp [hneg]
  · rw [main_kill_readable opts' (main opts w).world path _ hf' hp' h1,
      fscanf_fprintf_pid p _ hp1 hp2, sysKill_fst, h2]
    by_cases hl : p ∈ w.live <;> simp [hl, isKill]

/-- C16, witness: the daemon has process identifier 4242. -/
theorem pid_file_round_trip_witness :
    (main [Opt.daemonize, Opt.pidfile "/run/pot.pid"] (sampleWorld [4242])).trace.filter
        isFileAction
        = [Action.fopenWrite "/run/pot.pid" true,
            Action.fprintf "/run/pot.pid" (formatInt 4242 ++ ['\n'])]
    ∧ (main [Opt.daemonize, Opt.pidfile "/run/pot.pid"] (sampleWorld [4242])).world.files
        "/run/pot.pid" = some (formatInt 4242 ++ ['\n'])
    ∧ (∃ ds : List Nat, ds ≠ [] ∧ (∀ d ∈ ds, d < 10) ∧ digitsValue ds = (4242 : Int).natAbs
        ∧ formatInt 4242 = (if (4242 : Int) < 0 then ['-'] else []) ++ ds.map digitChar)
    ∧ (∀ old : Int, fscanf_pid (formatInt 4242 ++ ['\n']) old = 4242)
    ∧ (main [Opt.pidfile "/run/pot.pid", Opt.kill]
          (main [Opt.daemonize, Opt.pidfile "/run/pot.pid"] (sampleWorld [4242])).world).trace.filter
        isKill
        = [Action.kill 4242 SIGKILL (if (4242 : Int) ∈ (sampleWorld [4242]).live then 0 else -1)] :=
  pid_file_round_trip [Opt.daemonize, Opt.pidfile "/run/pot.pid"]
    [Opt.pidfile "/run/pot.pid", Opt.kill] (sampleWorld [4242]) "/run/pot.pid" 4242
    (by decide) (by decide) (by decide) (by decide) (by decide) (by decide) (by decide)
    (by decide) (by decide)

/-! ## The channel reader, byte by byte -/

/-- C17: for every three response bytes `b0, b1, b2` in the frame after the bus
transaction, `readVoltage` returns `((b1 AND 0x0F) << 8) OR b2`, that is
`(b1 mod 16) * 256 + b2`; a response with another `b0` and another high nibble
of `b1` gives the same result. -/
theorem readVoltage_decodes_twelve_bits (diff channel : Int) (spi : Spi) (b0 b1 b2 : Nat)
    (_h0 : b0 < 256) (h1 : b1 < 256) (h2 : b2 < 256)
    (hdev : spi.device spi.count (requestFrame diff channel) = ⟨b0, b1, b2⟩) :
    (readVoltage diff channel spi).1 = ((((b1 &&& 0x0F) <<< 8) ||| b2 : Nat) : Int)
    ∧ (readVoltage diff channel spi).1 = (((b1 % 16) * 256 + b2 : Nat) : Int)
    ∧ ∀ (spi' : Spi) (c0 c1 : Nat), c0 < 256 → c1 < 256 → c1 % 16 = b1 % 16 →
        spi'.device spi'.count (requestFrame diff channel) = ⟨c0, c1, b2⟩ →
        (readVoltage diff channel spi').1 = (readVoltage diff channel spi).1 := by
  have key : ∀ (s : Spi) (a0 a1 : Nat), a1 < 256 →
      s.device s.count (requestFrame diff channel) = ⟨a0, a1, b2⟩ →
      (readVoltage diff channel s).1 = (((a1 % 16) * 256 + b2 : Nat) : Int) := by
    intro s a0 a1 ha1 hs
    rw [readVoltage_fst, hs, decodeFrame_eq _ (Nat.mod_lt _ (by decide))]
    simp only [Nat.mod_eq_of_lt ha1, Nat.mod_eq_of_lt h2]
  refine ⟨?_, key spi b0 b1 h1 hdev, ?_⟩
  · rw [readVoltage_fst, hdev]
    simp only [decodeFrame, Nat.mod_eq_of_lt h1, Nat.mod_eq_of_lt h2]
  · intro spi' c0 c1 _ hc1 hmod hdev'
    rw [key spi' c0 c1 hc1 hdev', key spi b0 b1 h1 hdev, hmod]

/-- C17, witness: the response bytes `0xFF, 0xAB, 0xCD`. -/
theorem readVoltage_decodes_twelve_bits_witness :
    (readVoltage 0 0 ⟨fun _ _ => ⟨0xFF, 0xAB, 0xCD⟩, 0, []⟩).1
        = ((((0xAB &&& 0x0F) <<< 8) ||| 0xCD : Nat) : Int)
    ∧ (readVoltage 0 0 ⟨fun _ _ => ⟨0xFF, 0xAB, 0xCD⟩, 0, []⟩).1
        = (((0xAB % 16) * 256 + 0xCD : Nat) : Int)
    ∧ ∀ (spi' : Spi) (c0 c1 : Nat), c0 < 256 → c1 < 256 → c1 % 16 = 0xAB % 16 →
        spi'.device spi'.count (requestFrame 0 0) = ⟨c0, c1, 0xCD⟩ →
        (readVoltage 0 0 spi').1
          = (readVoltage 0 0 ⟨fun _ _ => ⟨0xFF, 0xAB, 0xCD⟩, 0, []⟩).1 :=
  readVoltage_decodes_twelve_bits 0 0 ⟨fun _ _ => ⟨0xFF, 0xAB, 0xCD⟩, 0, []⟩ 0xFF 0xAB 0xCD
    (by decide) (by decide) (by decide) rfl

/-- C18: for every differential flag and every channel in 0..7, the frame
`readVoltage` sends is: byte 0 = the start bit (bit 2) OR the mode bit (bit 1,
set exactly when `diff` is 0, single-ended) OR bit 2 of the channel in bit 0;
byte 1 = bit 1 of the channel in bit 7 OR bit 0 of the channel in bit 6, all
other bits 0; byte 2 = 0. -/
theorem request_frame_layout (diff channel : Int) (spi : Spi)
    (hc0 : 0 ≤ channel) (hc7 : channel ≤ 7) :
    (readVoltage diff channel spi).2.sent = spi.sent ++ [requestFrame diff channel]
    ∧ channel = ((4 * bitOf channel 2 + 2 * bitOf channel 1 + bitOf channel 0 : Nat) : Int)
    ∧ (requestFrame diff channel).b0
        = (1 <<< 2) ||| (if diff = 0 then 1 <<< 1 else 0) ||| bitOf channel 2
    ∧ (requestFrame diff channel).b1 = (bitOf channel 1 <<< 7) ||| (bitOf channel 0 <<< 6)
    ∧ (requestFrame diff channel).b2 = 0
    ∧ (requestFrame diff channel).b0 = 4 + (if diff = 0 then 2 else 0) + bitOf channel 2
    ∧ (requestFrame diff channel).b1 = 128 * bitOf channel 1 + 64 * bitOf channel 0 := by
  refine ⟨readVoltage_snd diff channel spi ▸ rfl, bitOf_recompose channel hc0 hc7, ?_, ?_, ?_,
    ?_, ?_⟩
  · rw [requestFrame_bits]
  · rw [requestFrame_bits]
  · rw [requestFrame_bits]
  · rw [requestFrame_arith]
  · rw [requestFrame_arith]

/-- C18, witness: differential mode, channel 5. -/
theorem request_frame_layout_witness :
    (readVoltage 1 5 zeroSpi).2.sent = zeroSpi.sent ++ [requestFrame 1 5]
    ∧ (5 : Int) = ((4 * bitOf 5 2 + 2 * bitOf 5 1 + bitOf 5 0 : Nat) : Int)
    ∧ (requestFrame 1 5).b0 = (1 <<< 2) ||| (if (1 : Int) = 0 then 1 <<< 1 else 0) ||| bitOf 5 2
    ∧ (requestFrame 1 5).b1 = (bitOf 5 1 <<< 7) ||| (bitOf 5 0 <<< 6)
    ∧ (requestFrame 1 5).b2 = 0
    ∧ (requestFrame 1 5).b0 = 4 + (if (1 : Int) = 0 then 2 else 0) + bitOf 5 2
    ∧ (requestFrame 1 5).b1 = 128 * bitOf 5 1 + 64 * bitOf 5 0 :=
  request_frame_layout 1 5 zeroSpi (by decide) (by decide)

/-! ## Offsets and injectivity -/

/-- C19: for every buffer `f` of length `N ≥ 1`, every integer `c` and every
bin `k` with `0 < k < N`, adding `c` to every sample leaves `power_spectral`
unchanged; hence two cycles of 256 readings that differ by a constant offset
are classified alike by `check_power`, and a steady reading of any level is
classified as off. -/
theorem power_spectral_offset_invariant (f g : List Int) (N : Nat) (k c : Int)
    (hN : 1 ≤ N) (_hf : f.length = N) (_hlen : g.length = N)
    (hk0 : 0 < k) (hkN : k < (N : Int))
    (hg : ∀ i : Nat, i < N → g.getD i 0 = f.getD i 0 + c) :
    power_spectral g (N : Int) k = power_spectral f (N : Int) k
    ∧ (∀ (spi spi' : Spi) (d : Int),
        (∀ i : Nat, i < 256 → (readings spi' 256).getD i 0 = (readings spi 256).getD i 0 + d) →
        (check_power spi').1 = (check_power spi).1)
    ∧ (∀ (spi : Spi) (v : Int), readings spi 256 = List.replicate 256 v →
        (check_power spi).1 = 0) := by
  refine ⟨power_spectral_add_const f g N k c hN hk0 hkN hg, ?_, ?_⟩
  · intro spi spi' d h
    have e := power_spectral_add_const (readings spi 256) (readings spi' 256) 256 15 d
      (by decide) (by decide) (by decide) h
    have h256 : ((256 : Nat) : Int) = 256 := rfl
    rw [h256] at e
    rw [check_power_fst, check_power_fst, e]
  · intro spi v h
    have e : power_spectral (List.replicate 256 v) ((256 : Nat) : Int) 15 = 0 := by
      rw [power_spectral_eq_abs, dftCoeff_replicate,
        geom_sum_twiddle 256 15 (by decide) (by decide)]
      simp
    have h256 : ((256 : Nat) : Int) = 256 := rfl
    rw [h256] at e
    rw [check_power_fst, h, e]
    norm_num

/-- C19, witness: the buffer `[1, 2, 3]` shifted by 10, at bin 1. -/
theorem power_spectral_offset_invariant_witness :
    power_spectral [11, 12, 13] ((3 : Nat) : Int) 1 = power_spectral [1, 2, 3] ((3 : Nat) : Int) 1
    ∧ (∀ (spi spi' : Spi) (d : Int),
        (∀ i : Nat, i < 256 → (readings spi' 256).getD i 0 = (readings spi 256).getD i 0 + d) →
        (check_power spi').1 = (check_power spi).1)
    ∧ (∀ (spi : Spi) (v : Int), readings spi 256 = List.replicate 256 v →
        (check_power spi).1 = 0) :=
  power_spectral_offset_invariant [1, 2, 3] [11, 12, 13] 3 1 10 (by decide) rfl rfl
    (by decide) (by decide) (fun i hi => by interval_cases i <;> rfl)

/-- C20: the request frame is injective on its valid domain: two pairs
(differential flag as a boolean, channel in 0..7) with the same frame have the
same flag and the same channel; and for every channel argument the frame is
that of the argument reduced modulo 8 (only the low three bits are used). -/
theorem request_frame_injective :
    (∀ d1 d2 c1 c2 : Int, 0 ≤ c1 → c1 ≤ 7 → 0 ≤ c2 → c2 ≤ 7 →
        requestFrame d1 c1 = requestFrame d2 c2 → ((d1 = 0 ↔ d2 = 0) ∧ c1 = c2))
    ∧ (∀ d c : Int, requestFrame d c = requestFrame d (c % 8)) := by
  constructor
  · intro d1 d2 c1 c2 h1 h1' h2 h2' heq
    rw [requestFrame_arith, requestFrame_arith] at heq
    injection heq with e0 e1 _
    have r1 := bitOf_recompose c1 h1 h1'
    have r2 := bitOf_recompose c2 h2 h2'
    rcases bitOf_le_one c1 2 with a2 | a2 <;> rcases bitOf_le_one c1 1 with a1 | a1 <;>
    rcases bitOf_le_one c1 0 with a0 | a0 <;> rcases bitOf_le_one c2 2 with b2 | b2 <;>
    rcases bitOf_le_one c2 1 with b1 | b1 <;> rcases bitOf_le_one c2 0 with b0 | b0 <;>
    by_cases hd1 : d1 = 0 <;> by_cases hd2 : d2 = 0 <;>
    simp only [a2, a1, a0, b2, b1, b0, hd1, hd2, if_true, if_false] at e0 e1 r1 r2 <;>
    omega
  · intro d c
    rw [requestFrame_arith, requestFrame_arith, bitOf_emod_eight c 2 (by decide),
      bitOf_emod_eight c 1 (by decide), bitOf_emod_eight c 0 (by decide)]

/-- C20, witness: channel 3 in both modes, channels 3 and 4, and channel 11. -/
theorem request_frame_injective_witness :
    requestFrame 0 3 ≠ requestFrame 1 3 ∧ requestFrame 0 3 ≠ requestFrame 0 4
      ∧ requestFrame 0 11 = requestFrame 0 (11 % 8) := by
  refine ⟨fun h => ?_, fun h => ?_, request_frame_injective.2 0 11⟩
  · have := (request_frame_injective.1 0 1 3 3 (by decide) (by decide) (by decide) (by decide)
      h).1
    exact absurd (this.mp rfl) (by decide)
  · have := (request_frame_injective.1 0 0 3 4 (by decide) (by decide) (by decide) (by decide)
      h).2
    exact absurd this (by decide)

end CheckPot
